import Mathlib

/-!
Verification of the pdf-rag-mcp-server backend.

This file contains a shallow embedding of the parts of the repository that
the verified properties talk about:

* `src/backend/app/vector_store.py` (the `VectorStore` class),
* `src/backend/app/vector_backends/chroma_backend.py` and
  `src/backend/app/vector_backends/lance_backend.py`,
* `src/backend/app/vector_backends/base.py` (`markdown_is_current`),
* `src/backend/app/pdf_processor.py` (`PDFProcessor.process_pdf` and
  `PDFProcessor._emit_status`),
* `src/backend/app/pdf_watcher.py` (`PDFDirectoryWatcher._handle_candidate`),
* the document-state mutations of `src/backend/app/main.py`
  (upload, blacklist add/remove, startup reconciliation).

Python strings are modelled by `String`, Python floats (progress values,
timestamps) by `ℚ`, Python ints by `Nat`/`Int`.  Third-party library calls
(PyMuPDF page parsing, pytesseract OCR, the sentence-transformer encoder,
the langchain text splitter and the approximate-nearest-neighbour search of
the vector database) are modelled as abstract inputs/parameters; everything
the repository's own code does with their results is transcribed.
-/

namespace PdfRag


/-- Split a list into consecutive batches of `k` elements (the
`for i in range(0, len(xs), k): xs[i:i+k]` batching idiom used throughout
`vector_store.py` and `chroma_backend.py`).  `k = 0` yields no batches. -/
def chunksOf (k : Nat) : List α → List (List α)
  | [] => []
  | x :: xs =>
    if _h : k = 0 then []
    else (x :: xs).take k :: chunksOf k ((x :: xs).drop k)
termination_by l => l.length
decreasing_by
  simp [List.length_drop]
  omega

/-- Python truthiness of `s.strip()`: `s.strip()` is empty iff every
character of `s` is whitespace.  This is the embedding of the
`not s.strip()` tests of `pdf_processor.py`. -/
def isBlank (s : String) : Bool :=
  s.toList.all Char.isWhitespace

/-- Python `str.strip()`: drop leading and trailing whitespace. -/
def pyStrip (s : String) : String :=
  ⟨((s.toList.dropWhile Char.isWhitespace).reverse.dropWhile
    Char.isWhitespace).reverse⟩

/-- The embedding of Python `"\n".join(texts)` (`pdf_processor.py`,
line 242). -/
def joinNL : List String → String
  | [] => ""
  | [s] => s
  | s :: rest => s ++ "\n" ++ joinNL rest

/-! ## The vector record model

A record of the vector index carries a string id, the chunk text and its
metadata.  Metadata dictionaries are modelled as association lists from
string keys to values that are either strings or integers. -/

/-- A Python metadata value.  The dictionaries built in
`pdf_processor.py` lines 370-379 hold strings, ints and one float
(`timestamp`); only string and int keys are ever filtered on or used in
id derivation, so those are the values modelled. -/
inductive MVal where
  | str (s : String)
  | num (n : Int)
deriving DecidableEq, Repr

/-- A metadata dictionary. -/
abbrev Metadata := List (String × MVal)

/-- One stored vector record (one entry of the Chroma collection /
Lance table).  The embedding vector itself plays no role in any verified
property and is omitted. -/
structure VRecord where
  rid : String
  text : String
  meta : Metadata
deriving DecidableEq, Repr

/-- `collection.get(where=filter)` matching: a record matches a `where`
filter when every key/value pair of the filter is present in its
metadata. -/
def matchesWhere (filter : Metadata) (m : Metadata) : Bool :=
  filter.all fun kv => m.lookup kv.1 == some kv.2

/-- Remove every record whose id is in `ids`. -/
def removeIds (ids : List String) (col : List VRecord) : List VRecord :=
  col.filter fun r => !(ids.contains r.rid)

/-! ## Chunk metadata and record ids

`PDFProcessor.process_pdf` (`pdf_processor.py` lines 358-380) builds one
metadata dictionary per chunk; the stores derive the record id
`"doc_" + pdf_id + "_" + chunk_id` from it. -/

/-- The metadata dictionary built for one chunk
(`pdf_processor.py` lines 369-379). -/
structure ChunkMeta where
  source : String
  chunk_id : String
  pdf_id : Nat
  page : Nat
  batch : String
  index : Nat
  length : Nat
  timestamp : ℚ
deriving DecidableEq, Repr

/-- Render a `ChunkMeta` as the metadata dictionary stored with the
record.  The float-valued `timestamp` key is carried on `ChunkMeta`
itself but, never being filtered on or compared, is not replicated in the
stored dictionary model. -/
def ChunkMeta.toMetadata (m : ChunkMeta) : Metadata :=
  [("source", .str m.source), ("chunk_id", .str m.chunk_id),
   ("pdf_id", .num m.pdf_id), ("page", .num m.page), ("batch", .str m.batch),
   ("index", .num m.index), ("length", .num m.length)]

/-- The record id `f"doc_{meta['pdf_id']}_{meta['chunk_id']}"`
(`vector_store.py` line 132, `chroma_backend.py` line 118,
`lance_backend.py` line 78). -/
def recordId (m : ChunkMeta) : String :=
  "doc_" ++ toString m.pdf_id ++ "_" ++ m.chunk_id

/-- The metadata list built by `process_pdf` for the chunks of one run
(`pdf_processor.py` lines 362-380): `chunk_id = f"{batch_id}_{i}"`, and the
page number is `page_numbers[min(i, len(page_numbers) - 1)]` (0 when no
page numbers were collected). -/
def makeMetadatas (filename : String) (pdf_id : Nat) (batch_id : String)
    (now : ℚ) (chunks : List String) (page_numbers : List Nat) :
    List ChunkMeta :=
  chunks.enum.map fun p =>
    let i := p.1
    let chunk := p.2
    let page_num :=
      if page_numbers.isEmpty then 0
      else page_numbers.getD (min i (page_numbers.length - 1)) 0
    { source := filename
      chunk_id := batch_id ++ "_" ++ toString i
      pdf_id := pdf_id
      page := page_num
      batch := batch_id
      index := i
      length := chunk.length
      timestamp := now }

/-- The records a batch of chunks turns into. -/
def recordsOf (chunks : List String) (metas : List ChunkMeta) :
    List VRecord :=
  (chunks.zip metas).map fun p =>
    { rid := recordId p.2, text := p.1, meta := p.2.toMetadata }

/-- `collection.add` on one batch.  Chroma rejects ids that are already
stored or repeat inside the batch; the callers catch the error, log it and
keep the collection as it was (`vector_store.py` lines 191-202,
`chroma_backend.py` lines 143-151). -/
def collectionAdd (col : List VRecord) (batch : List VRecord) :
    List VRecord :=
  if decide (batch.map VRecord.rid).Nodup
      && batch.all (fun r => !(col.any fun c => c.rid == r.rid)) then
    col ++ batch
  else col

/-- Shared body of `VectorStore.add_documents` (`vector_store.py`
lines 110-232) and `ChromaVectorBackend.add_documents`
(`chroma_backend.py` lines 105-162), which are line-for-line copies of
each other up to the `if not chunks` guard: collect the incoming ids that
are already stored, delete them in batches of 100, then insert the new
records in batches of 100.  The boolean result is the Python return value
(`True` on this path; `False` is only returned when the underlying client
raises, which is outside the model). -/
def addDocumentsCore (chunks : List String) (metadatas : List ChunkMeta)
    (col : List VRecord) : Bool × List VRecord :=
  let ids := metadatas.map recordId
  let existing_ids := ids.filter fun i => col.any fun r => r.rid == i
  let col1 := (chunksOf 100 existing_ids).foldl (fun c b => removeIds b c) col
  let col2 := (chunksOf 100 (recordsOf chunks metadatas)).foldl collectionAdd col1
  (true, col2)

namespace VectorStore

/-- `VectorStore.add_documents` (`vector_store.py` lines 110-232). -/
def add_documents (chunks : List String) (metadatas : List ChunkMeta)
    (col : List VRecord) : Bool × List VRecord :=
  addDocumentsCore chunks metadatas col

end VectorStore

namespace ChromaBackend

/-- `ChromaVectorBackend.add_documents` (`chroma_backend.py`
lines 105-162): identical to `VectorStore.add_documents` except for the
`if not chunks: return True` fast path. -/
def add_documents (chunks : List String) (metadatas : List ChunkMeta)
    (col : List VRecord) : Bool × List VRecord :=
  if chunks.isEmpty then (true, col)
  else addDocumentsCore chunks metadatas col

end ChromaBackend

namespace LanceBackend

/-- `LanceVectorBackend._build_records` (`lance_backend.py`
lines 68-92): same id derivation, then the record fields. -/
def buildRecords (chunks : List String) (metadatas : List ChunkMeta) :
    List VRecord :=
  (chunks.zip metadatas).map fun p =>
    { rid := recordId p.2, text := p.1, meta := p.2.toMetadata }

/-- `LanceVectorBackend.add_documents` (`lance_backend.py` lines 94-113).
The table is `none` until first creation (`_ensure_table`); once it
exists, `self.table.add(records)` simply appends the new rows — there is
no lookup or deletion of records sharing an id. -/
def add_documents (chunks : List String) (metadatas : List ChunkMeta)
    (table : Option (List VRecord)) : Bool × Option (List VRecord) :=
  if chunks.isEmpty then (true, table)
  else
    let records := buildRecords chunks metadatas
    match table with
    | none => (true, some records)
    | some t => (true, some (t ++ records))

end LanceBackend

/-- Shared body of `VectorStore.delete` (`vector_store.py` lines 366-442)
and `ChromaVectorBackend.delete` (`chroma_backend.py` lines 239-267):
with a (truthy, i.e. non-empty) filter, fetch the matching ids and delete
them in batches of 100; otherwise with a truthy id list delete those ids
in batches; otherwise do nothing and return `False`. -/
def deleteCore (filter : Metadata) (ids : List String)
    (col : List VRecord) : Bool × List VRecord :=
  if !filter.isEmpty then
    let doc_ids := (col.filter fun r => matchesWhere filter r.meta).map VRecord.rid
    if doc_ids.isEmpty then (true, col)
    else (true, (chunksOf 100 doc_ids).foldl (fun c b => removeIds b c) col)
  else if !ids.isEmpty then
    (true, (chunksOf 100 ids).foldl (fun c b => removeIds b c) col)
  else (false, col)

namespace VectorStore

/-- `VectorStore.delete` (`vector_store.py` lines 366-442). -/
def delete (filter : Metadata) (ids : List String) (col : List VRecord) :
    Bool × List VRecord :=
  deleteCore filter ids col

end VectorStore

namespace ChromaBackend

/-- `ChromaVectorBackend.delete` (`chroma_backend.py` lines 239-267). -/
def delete (filter : Metadata) (ids : List String) (col : List VRecord) :
    Bool × List VRecord :=
  deleteCore filter ids col

end ChromaBackend

/-- Number of stored records carrying a given id. -/
def ridCount (col : List VRecord) (i : String) : Nat :=
  (col.map VRecord.rid).count i

/-! ## The `process_pdf` pipeline

One run of `PDFProcessor.process_pdf` (`pdf_processor.py` lines 115-452).
A page of the opened document is modelled by the data the code reads from
PyMuPDF and pytesseract: its natively extracted text (`page.get_text()`),
the markdown snippets `_extract_page_images` produces for it (that helper
decodes binary image streams and is abstracted to its output), whether the
per-page `try` body succeeds (lines 190-238; a failure skips the page's
contributions and its progress update), and the OCR text pytesseract
returns for the rendered page in the fallback loop (`none` models an OCR
exception, which `continue`s past the page, lines 260-274). -/

structure Page where
  nativeText : String
  imagesMarkdown : List String
  parseOk : Bool
  ocrText : Option String
deriving DecidableEq, Repr

/-- Contributions of one page (1-based `page_number`) to `all_texts` /
`page_numbers` (`pdf_processor.py` lines 193-214): the native text when it
is truthy and not all-whitespace, then one placeholder per extracted
image. -/
def pageTexts (page_number : Nat) (p : Page) : List (String × Nat) :=
  (if !(isBlank p.nativeText) then [(p.nativeText, page_number)] else []) ++
  p.imagesMarkdown.enum.map (fun q =>
    ("[Embedded image " ++ toString (q.1 + 1) ++ " on page " ++
      toString page_number ++ "]", page_number))

/-- `all_texts` paired with `page_numbers` after the parse loop. -/
def parsedTexts (pages : List Page) : List (String × Nat) :=
  pages.enum.flatMap fun q =>
    if q.2.parseOk then pageTexts (q.1 + 1) q.2 else []

/-- The OCR fallback loop's collected `ocr_texts` / `ocr_pages`
(`pdf_processor.py` lines 256-294): pages whose OCR raised contribute
nothing, pages whose OCR text strips to empty contribute nothing. -/
def ocrResults (pages : List Page) : List (String × Nat) :=
  pages.enum.flatMap fun q =>
    match q.2.ocrText with
    | none => []
    | some t => if !(isBlank t) then [(t, q.1 + 1)] else []

/-- Whether the whole-document fallback fires: `if not joined_text.strip()`
over the concatenation of `all_texts` (`pdf_processor.py` lines 242-245). -/
def ocrTriggered (pages : List Page) : Bool :=
  isBlank (joinNL ((parsedTexts pages).map Prod.fst))

/-- One progress broadcast candidate: the `progress` and `status` fields
of `PROCESSING_STATUS[filename]` at an `_emit_status` call. -/
structure Emission where
  progress : ℚ
  status : String
deriving DecidableEq, Repr

/-- The `PDFDocument` flag columns a run leaves behind (error text,
blacklist timestamp and reason are set alongside `blacklisted` and are
not modelled separately). -/
structure DocFlags where
  processed : Bool
  processing : Bool
  blacklisted : Bool
  progress : ℚ
deriving DecidableEq, Repr

inductive Outcome where
  | completed
  | fileMissing
  | blacklisted
  | noChunks
  | storeFailed
  | crashed
deriving DecidableEq, Repr

structure RunResult where
  outcome : Outcome
  flags : DocFlags
  emits : List Emission
deriving Repr

/-- Everything `process_pdf` consumes that is not produced by its own
code: the opened pages, whether the file exists, the stored
`pdf_doc.progress` at entry (both call sites commit `progress = 0.0`
beforehand), the langchain text splitter, and whether the vector store
add reports success. -/
structure RunInput where
  pages : List Page
  fileExists : Bool
  progress0 : ℚ
  split : String → List String
  storeOk : Bool

/-- The progress value the parse loop commits for (0-based) page `i` of
an `n`-page document (`pdf_processor.py` line 220):
`progress = (i + 1) / len(doc) * 50`. -/
def parseProgress (n i : Nat) : ℚ :=
  ((i + 1 : Nat) : ℚ) / (n : ℚ) * 50

/-- The progress value the OCR loop commits for (0-based) page `i`
(`pdf_processor.py` lines 280-281):
`min(50 + (page_index + 1) / max(len(doc), 1) * 20, 70)`. -/
def ocrProgress (n i : Nat) : ℚ :=
  min (50 + ((i + 1 : Nat) : ℚ) / ((max n 1 : Nat) : ℚ) * 20) 70

/-- Per-page progress updates of the parse loop starting at page index
`i` (`pdf_processor.py` lines 219-229); a page whose per-page `try` body
raised is skipped. -/
def pageParseEmitsFrom (n : Nat) (i : Nat) : List Page → List Emission
  | [] => []
  | p :: ps =>
    (if p.parseOk then
      [⟨parseProgress n i,
        "Parsing PDF (" ++ toString (i + 1) ++ "/" ++ toString n ++ ")"⟩]
     else []) ++ pageParseEmitsFrom n (i + 1) ps

/-- Per-page progress updates of the parse loop. -/
def pageParseEmits (n : Nat) (pages : List Page) : List Emission :=
  pageParseEmitsFrom n 0 pages

/-- Per-page progress updates of the OCR loop starting at page index `i`
(`pdf_processor.py` lines 280-289); pages whose OCR raised are skipped
wholesale by the `continue`. -/
def ocrEmitsFrom (n : Nat) (i : Nat) : List Page → List Emission
  | [] => []
  | p :: ps =>
    (match p.ocrText with
     | none => []
     | some _ =>
       [⟨ocrProgress n i,
         "Running OCR (" ++ toString (i + 1) ++ "/" ++ toString n ++ ")"⟩])
      ++ ocrEmitsFrom n (i + 1) ps

/-- Per-page progress updates of the OCR loop. -/
def ocrEmits (n : Nat) (pages : List Page) : List Emission :=
  ocrEmitsFrom n 0 pages

/-- Progress carried by the last element of an emission block, with a
fallback for when the block is empty. -/
def lastProgress (fallback : ℚ) (es : List Emission) : ℚ :=
  match es.getLast? with
  | some e => e.progress
  | none => fallback

/-- Tail of the run shared by the parse-only and the OCR-recovered paths
(`pdf_processor.py` lines 321-435): split into chunks, then either fail on
empty chunks, fail on storage, or complete at progress 100.  `dictp` is
the `progress` field the status dictionary holds when this tail starts. -/
def processTail (inp : RunInput) (texts : List (String × Nat))
    (acc : List Emission) (dictp : ℚ) : RunResult :=
  let joined := joinNL (texts.map Prod.fst)
  let chunks := inp.split joined
  let acc1 := acc ++ [⟨dictp, "Generating embeddings"⟩]
  if chunks.isEmpty then
    { outcome := .noChunks
      flags := ⟨false, false, false, dictp⟩
      emits := acc1 ++ [⟨dictp, "Generating embeddings"⟩] }
  else if !inp.storeOk then
    { outcome := .storeFailed
      flags := ⟨false, false, false, 75⟩
      emits := acc1 ++ [⟨75, "Storing in vector database"⟩,
        ⟨75, "Error: Failed to store to vector database"⟩] }
  else
    { outcome := .completed
      flags := ⟨true, false, false, 100⟩
      emits := acc1 ++ [⟨75, "Storing in vector database"⟩,
        ⟨100, "Completed"⟩] }

/-- `PDFProcessor.process_pdf` (`pdf_processor.py` lines 115-452) as a
function from the run's inputs to its outcome, the document flags it
commits last, and the sequence of `_emit_status` candidates it produces.
The record is marked `processing = True` on entry; every exit path commits
`processing = False`.  When the document has no pages and the fallback
collects no OCR text, the blacklist branch reads the unbound loop variable
`page_index` and raises `NameError`, so that path ends in the generic
exception handler instead of blacklisting. -/
def process_pdf (inp : RunInput) : RunResult :=
  let n := inp.pages.length
  let e0 : List Emission := [⟨0, "Processing"⟩]
  if !inp.fileExists then
    { outcome := .fileMissing
      flags := ⟨false, false, false, inp.progress0⟩
      emits := e0 ++ [⟨0, "Processing"⟩] }
  else
    let pe := pageParseEmits n inp.pages
    let acc0 := e0 ++ [⟨0, "Parsing PDF"⟩] ++ pe
    let dbp := lastProgress inp.progress0 pe
    let dictp := lastProgress 0 pe
    if ocrTriggered inp.pages then
      let eo := ocrEmits n inp.pages
      let accOcr := acc0 ++ [⟨dbp, "Running OCR"⟩] ++ eo
      let dpOcr := lastProgress dbp eo
      let texts := ocrResults inp.pages
      if texts.isEmpty then
        if n = 0 then
          { outcome := .crashed
            flags := ⟨false, false, false, dbp⟩
            emits := accOcr ++ [⟨dbp, "Error: name page_index is not defined"⟩] }
        else
          { outcome := .blacklisted
            flags := ⟨false, false, true, dpOcr⟩
            emits := accOcr ++ [⟨dpOcr, "Blacklisted"⟩] }
      else
        processTail inp texts accOcr dpOcr
    else
      processTail inp (parsedTexts inp.pages) acc0 dictp

/-! ## Broadcast throttling

`PDFProcessor._emit_status` (`pdf_processor.py` lines 81-110): each call
reads the current status dictionary and broadcasts it unless, compared to
the `_last_broadcast` marker, the status text is unchanged, the progress
moved by less than 0.2 and less than one second passed. -/

/-- The `_last_broadcast[filename]` marker. -/
structure Marker where
  progress : ℚ
  status : String
  ts : ℚ
deriving DecidableEq, Repr

/-- The suppression test of `_emit_status` (`pdf_processor.py`
lines 97-103) for a candidate paired with its `time.monotonic()` stamp. -/
def suppressed (prev : Marker) (c : Emission × ℚ) : Bool :=
  c.1.status == prev.status &&
    decide (|c.1.progress - prev.progress| < 1/5) &&
    decide (c.2 - prev.ts < 1)

/-- Run the `_emit_status` throttle over a sequence of candidates,
returning the emissions actually broadcast.  A broadcast candidate
becomes the new marker (`pdf_processor.py` lines 105-110). -/
def throttleRun (m : Option Marker) : List (Emission × ℚ) → List Emission
  | [] => []
  | c :: rest =>
    match m with
    | none => c.1 :: throttleRun (some ⟨c.1.progress, c.1.status, c.2⟩) rest
    | some prev =>
      if suppressed prev c then throttleRun (some prev) rest
      else c.1 :: throttleRun (some ⟨c.1.progress, c.1.status, c.2⟩) rest

/-- Pair each emission candidate with its `time.monotonic()` stamp, the
stamps being an arbitrary sequence indexed by emission position. -/
def attachTimesFrom (τ : Nat → ℚ) (i : Nat) : List Emission → List (Emission × ℚ)
  | [] => []
  | e :: es => (e, τ i) :: attachTimesFrom τ (i + 1) es

/-- Candidates of a whole run with their time stamps. -/
def attachTimes (τ : Nat → ℚ) (es : List Emission) : List (Emission × ℚ) :=
  attachTimesFrom τ 0 es

/-- Progress-ordering of emissions; "non-decreasing progress" is
`List.Pairwise progLE`. -/
def progLE (a b : Emission) : Prop :=
  a.progress ≤ b.progress

/-! ## The directory watcher

`PDFDirectoryWatcher._handle_candidate` (`pdf_watcher.py` lines 103-181).
The observable actions it takes, in program order, are modelled as an
event list: the database commit that (re-)marks the record, the vector
purge, and the dispatch of the document to the worker executor. -/

inductive WatchEvent where
  | markReprocess (docId : Nat)
  | createRecord (path : String)
  | purgeVectors (filter : Metadata)
  | enqueue (docId : Nat)
deriving DecidableEq, Repr

/-- The document record as the watcher sees it. -/
structure WDoc where
  wid : Nat
  filename : String
  file_path : String
  file_size : Nat
  uploaded_at : Option ℚ
  processed : Bool
  processing : Bool
  blacklisted : Bool
  progress : ℚ
deriving DecidableEq, Repr

/-- `needs_reprocess` (`pdf_watcher.py` lines 127-131): not yet processed,
or uploaded before the file's current modification time, or a size
mismatch.  The `blacklisted` column is not consulted. -/
def needs_reprocess (d : WDoc) (file_size : Nat) (mtime : ℚ) : Bool :=
  !d.processed ||
    (match d.uploaded_at with
     | some t => decide (t < mtime)
     | none => false) ||
    d.file_size != file_size

/-- `_handle_candidate` (`pdf_watcher.py` lines 103-181) for a file of
the given size and modification time: returns the emitted events in
program order together with the committed record.  `now` is
`datetime.utcnow()` at commit time, `newId` the primary key a created
record receives. -/
def _handle_candidate (existing : Option WDoc) (display_name : String)
    (absolute_path : String) (file_size : Nat) (mtime : ℚ) (now : ℚ)
    (newId : Nat) : List WatchEvent × Option WDoc :=
  match existing with
  | some d =>
    if d.processing then ([], some d)
    else if needs_reprocess d file_size mtime then
      let d' := { d with
        processing := true
        processed := false
        progress := 0
        file_size := file_size
        uploaded_at := some now }
      ([.markReprocess d.wid, .purgeVectors [("pdf_id", .num d.wid)],
        .enqueue d.wid], some d')
    else ([], some d)
  | none =>
    let d' : WDoc :=
      { wid := newId, filename := display_name, file_path := absolute_path,
        file_size := file_size, uploaded_at := some now, processed := false,
        processing := true, blacklisted := false, progress := 0 }
    ([.createRecord absolute_path, .enqueue newId], some d')

/-! ## Document flag states across operations

The flag triple `(processed, processing, blacklisted)` of one
`PDFDocument` row, together with the commits each operation of the
service performs on it:

* `upload_pdf` creates `(False, True, False)` (`main.py` lines 233-243);
* the watcher creates `(False, True, False)` for a new file
  (`pdf_watcher.py` lines 148-156);
* `add_blacklist` creates a `(False, False, True)` placeholder
  (`main.py` lines 641-653);
* the watcher re-marks a changed record `processing=True, processed=False`
  when it is not currently processing (`pdf_watcher.py` lines 122-145);
* `process_pdf` marks `processing=True` on entry; both dispatch sites
  queue the document with `processed=False` committed immediately before,
  which the `processBegin` guard records (`pdf_processor.py` line 136);
* `process_pdf` ends with `processed=True, processing=False` on success,
  `processing=False` on failure, and `blacklisted=True, processing=False`
  on the empty-text fallback (`pdf_processor.py` lines 302-319, 423-425,
  437-450);
* `add_blacklist` on an existing row sets `blacklisted=True,
  processing=False` and leaves `processed` untouched (`main.py`
  lines 620-639);
* `remove_blacklist` clears `blacklisted` (`main.py` lines 659-669);
* `reset_interrupted_processing` clears `processing` (`main.py`
  lines 872-897). -/

structure FlagSt where
  processed : Bool
  processing : Bool
  blacklisted : Bool
deriving DecidableEq, Repr

inductive FlagInit : FlagSt → Prop
  | upload : FlagInit ⟨false, true, false⟩
  | watcherNew : FlagInit ⟨false, true, false⟩
  | blacklistPlaceholder : FlagInit ⟨false, false, true⟩

inductive FlagStep : FlagSt → FlagSt → Prop
  | watcherReprocess (s : FlagSt) (h : s.processing = false) :
      FlagStep s ⟨false, true, s.blacklisted⟩
  | processBegin (s : FlagSt) (h : s.processed = false) :
      FlagStep s ⟨false, true, s.blacklisted⟩
  | processComplete (s : FlagSt) : FlagStep s ⟨true, false, s.blacklisted⟩
  | processFail (s : FlagSt) : FlagStep s ⟨s.processed, false, s.blacklisted⟩
  | processBlacklist (s : FlagSt) : FlagStep s ⟨s.processed, false, true⟩
  | addBlacklist (s : FlagSt) : FlagStep s ⟨s.processed, false, true⟩
  | removeBlacklist (s : FlagSt) :
      FlagStep s ⟨s.processed, s.processing, false⟩
  | resetInterrupted (s : FlagSt) :
      FlagStep s ⟨s.processed, false, s.blacklisted⟩

/-- Flag triples reachable from a record creation through the modelled
operations. -/
inductive FlagReach : FlagSt → Prop
  | init (s : FlagSt) : FlagInit s → FlagReach s
  | step (s t : FlagSt) : FlagReach s → FlagStep s t → FlagReach t

/-! ## Search -/

/-- The search result dictionary.  The Python code returns three parallel
window lists (documents, metadatas, distances) sliced identically from
the backend's parallel result lists; the model keeps the records
themselves, of which those lists are projections.  `has_more` and
`total_fetched` are `none` when the key is absent from the returned
dictionary (the early return for an empty collection,
`vector_store.py` lines 280-286). -/
structure SearchOut where
  documents : List VRecord
  has_more : Option Bool
  total_fetched : Option Nat
deriving DecidableEq, Repr

/-- `VectorStore.search` (`vector_store.py` lines 234-329); the windowing
of `ChromaVectorBackend.search` (`chroma_backend.py` lines 164-218) is
identical.  `ranked` abstracts `collection.query`: the backend's full
relevance ordering of the matching records for the query vector under the
given filter, of which the call with `n_results=fetch_total` returns the
first `fetch_total` entries.  `total` is `collection.count()`.  The
normalisations `requested = max(int(n_results), 0)` and
`offset_val = max(int(offset), 0)` are transcribed; the dead
`if fetch_total <= 0` guard (lines 256-257) is unreachable since
`fetch_total = requested + offset_val + 1 >= 1`.  Python's
`window_end = offset_val + requested if requested > 0 else offset_val`
equals `offset_val + requested` in both cases. -/
def search (total : Nat) (ranked : List VRecord) (n_results : Int)
    (offset : Int) : SearchOut :=
  let requested := (max n_results 0).toNat
  let offset_val := (max offset 0).toNat
  let fetch_total := requested + offset_val + 1
  if total = 0 then
    { documents := [], has_more := none, total_fetched := none }
  else
    let fetched := ranked.take fetch_total
    let window_end := offset_val + requested
    let window :=
      if 0 < requested then (fetched.drop offset_val).take requested else []
    { documents := window
      has_more := some (decide (window_end < fetched.length))
      total_fetched := some fetched.length }

/-! ## Rebuild from persisted markdown

`ChromaVectorBackend.rebuild_from_markdown` (`chroma_backend.py`
lines 269-365) and the staleness check `markdown_is_current`
(`base.py` lines 86-98). -/

/-- One persisted `PDFMarkdownPage` row. -/
structure MdPage where
  page : Nat
  markdown : String
deriving DecidableEq, Repr

/-- A `PDFDocument` row as the rebuild path reads it.  `file_path = ""`
models a falsy path (`None` or empty), `fsMtime = none` models
`os.path.exists(...) == False` (or the `OSError` escape, which returns the
same value).  `pages` is the document's markdown rows in the
`ORDER BY page` order the query returns them in. -/
structure DbDoc where
  did : Nat
  filename : String
  file_path : String
  fsMtime : Option ℚ
  uploaded_at : Option ℚ
  processed : Bool
  blacklisted : Bool
  pages : List MdPage
deriving DecidableEq, Repr

/-- `markdown_is_current` (`base.py` lines 86-98): `True` when the path is
falsy, the file is missing, or the record has no upload timestamp;
otherwise compare the file's modification time against it. -/
def markdown_is_current (d : DbDoc) : Bool :=
  if d.file_path == "" then true
  else
    match d.fsMtime with
    | none => true
    | some m =>
      match d.uploaded_at with
      | none => true
      | some t => decide (m ≤ t)

/-- Chunks with their page numbers for one document
(`chroma_backend.py` lines 334-353): pages whose stripped markdown is
empty are skipped, the others are split into chunks. -/
def docPageChunks (split : String → List String) (d : DbDoc) :
    List (String × Nat) :=
  d.pages.flatMap fun pg =>
    let page_text := pyStrip pg.markdown
    if page_text == "" then []
    else (split page_text).map fun c => (c, pg.page)

/-- The metadata dictionaries for one rebuilt document: `chunk_counter`
runs over all the document's chunks across pages, and the batch id is the
fresh `rebuild-...` id drawn for the document. -/
def rebuildDocMetas (split : String → List String) (batch_id : String)
    (now : ℚ) (d : DbDoc) : List ChunkMeta :=
  (docPageChunks split d).enum.map fun q =>
    { source := d.filename
      chunk_id := batch_id ++ "_" ++ toString q.1
      pdf_id := d.did
      page := q.2.2
      batch := batch_id
      index := q.1
      length := q.2.1.length
      timestamp := now }

/-- The vector records one rebuilt document contributes. -/
def docRecords (split : String → List String) (batchOf : Nat → String)
    (now : ℚ) (d : DbDoc) : List VRecord :=
  recordsOf ((docPageChunks split d).map Prod.fst)
    (rebuildDocMetas split (batchOf d.did) now d)

/-- The per-document guards of the rebuild loop (`chroma_backend.py`
lines 308-327, 355-356): not blacklisted, markdown still current, at
least one markdown row, at least one chunk. -/
def eligibleDoc (split : String → List String) (d : DbDoc) : Bool :=
  !d.blacklisted && markdown_is_current d && !d.pages.isEmpty &&
    !((docPageChunks split d).map Prod.fst).isEmpty

/-- `rebuild_from_markdown` (`chroma_backend.py` lines 269-365):
a no-op when the collection already holds records; otherwise walk the
`processed` documents in id order, skip blacklisted / stale / empty ones
and `add_documents` the rest.  `batchOf` abstracts the per-document
`rebuild-{uuid4().hex[:8]}` batch id, `now` the `time.time()` stamp,
`split` the langchain splitter and the encoder is irrelevant to the
stored fields. -/
def rebuild_from_markdown (split : String → List String)
    (batchOf : Nat → String) (now : ℚ) (docs : List DbDoc)
    (col : List VRecord) : List VRecord :=
  if 0 < col.length then col
  else
    let processed_docs := docs.filter (·.processed)
    if processed_docs.isEmpty then col
    else
      processed_docs.foldl (fun c d =>
        if d.blacklisted then c
        else if !(markdown_is_current d) then c
        else if d.pages.isEmpty then c
        else if ((docPageChunks split d).map Prod.fst).isEmpty then c
        else (ChromaBackend.add_documents
          ((docPageChunks split d).map Prod.fst)
          (rebuildDocMetas split (batchOf d.did) now d) c).2) col

/-! ## Theorems -/

@[simp] theorem chunksOf_nil (k : Nat) : chunksOf k ([] : List α) = [] := by
  simp [chunksOf]

theorem chunksOf_join (k : Nat) (hk : k ≠ 0) (l : List α) :
    (chunksOf k l).flatten = l := by
  induction l using chunksOf.induct k with
  | case1 => simp
  | case2 x xs hzero => exact absurd hzero hk
  | case3 x xs hzero ih =>
    rw [chunksOf]
    simp only [hzero, dif_neg, not_false_iff]
    simp only [List.flatten_cons]
    rw [ih]
    exact List.take_append_drop k (x :: xs)

theorem toList_joinNL_cons (s : String) (t : String) (rest : List String) :
    (joinNL (s :: t :: rest)).toList =
      s.toList ++ '\n' :: (joinNL (t :: rest)).toList := by
  show (s ++ "\n" ++ joinNL (t :: rest)).toList = _
  simp [String.toList, String.data_append]

/-- The whole joined text is blank iff every joined component is blank
(the separator `"\n"` is itself whitespace). -/
theorem isBlank_joinNL (l : List String) :
    isBlank (joinNL l) = l.all isBlank := by
  induction l with
  | nil => rfl
  | cons s rest ih =>
    cases rest with
    | nil => simp [joinNL, isBlank]
    | cons t rest' =>
      unfold isBlank at ih ⊢
      rw [toList_joinNL_cons, List.all_append, List.all_cons, ih]
      simp

theorem removeIds_removeIds (ids : List String) (col : List VRecord) :
    removeIds ids (removeIds ids col) = removeIds ids col := by
  simp [removeIds, List.filter_filter]

/-- Batched removal by id equals one-shot removal of all the ids. -/
theorem foldl_removeIds (bs : List (List String)) (col : List VRecord) :
    bs.foldl (fun c b => removeIds b c) col = removeIds bs.flatten col := by
  induction bs generalizing col with
  | nil => simp [removeIds]
  | cons b rest ih =>
    simp only [List.foldl_cons, List.flatten_cons, ih]
    simp only [removeIds, List.filter_filter]
    congr 1
    funext r
    simp [List.contains_eq_any_beq, List.any_append, Bool.not_or, Bool.and_comm]

/-! ## Normal form of the shared add path -/

theorem foldl_collectionAdd (bs : List (List VRecord)) (col : List VRecord)
    (hnd : (bs.flatten.map VRecord.rid).Nodup)
    (hdisj : ∀ r ∈ bs.flatten, ∀ c ∈ col, c.rid ≠ r.rid) :
    bs.foldl collectionAdd col = col ++ bs.flatten := by
  induction bs generalizing col with
  | nil => simp
  | cons b rest ih =>
    simp only [List.flatten_cons, List.map_append, List.nodup_append] at hnd
    obtain ⟨hb, hrest, hdis⟩ := hnd
    simp only [List.flatten_cons] at hdisj
    have hstep : collectionAdd col b = col ++ b := by
      unfold collectionAdd
      rw [if_pos]
      rw [Bool.and_eq_true, decide_eq_true_iff]
      constructor
      · exact hb
      · rw [List.all_eq_true]
        intro r hr
        rw [Bool.not_eq_true', List.any_eq_false]
        intro c hc
        rw [beq_iff_eq]
        exact hdisj r (List.mem_append_left _ hr) c hc
    simp only [List.foldl_cons, hstep]
    rw [ih (col ++ b) hrest]
    · simp
    · intro r hr c hc
      rcases List.mem_append.mp hc with hcl | hcb
      · exact hdisj r (List.mem_append_right _ hr) c hcl
      · intro he
        exact hdis (List.mem_map_of_mem VRecord.rid hcb)
          (he ▸ List.mem_map_of_mem VRecord.rid hr)

theorem removeIds_filter_eq (ids : List String) (col : List VRecord) :
    removeIds (ids.filter fun i => col.any fun r => r.rid == i) col =
      removeIds ids col := by
  unfold removeIds
  apply List.filter_congr
  intro r hr
  congr 1
  rw [Bool.eq_iff_iff, List.contains_eq_any_beq, List.contains_eq_any_beq]
  simp only [List.any_filter, List.any_eq_true]
  constructor
  · rintro ⟨i, hi, hcond⟩
    rw [Bool.and_eq_true] at hcond
    exact ⟨i, hi, hcond.2⟩
  · rintro ⟨i, hi, hbeq⟩
    refine ⟨i, hi, ?_⟩
    rw [Bool.and_eq_true]
    refine ⟨?_, hbeq⟩
    rw [List.any_eq_true]
    exact ⟨r, hr, by rw [beq_iff_eq] at hbeq ⊢; exact hbeq⟩

/-- With pairwise-distinct incoming ids, the shared add path first removes
every stored record sharing an incoming id and then appends the new
records. -/
theorem recordsOf_map_rid (chunks : List String)
    (metadatas : List ChunkMeta)
    (hlen : chunks.length = metadatas.length) :
    (recordsOf chunks metadatas).map VRecord.rid =
      metadatas.map recordId := by
  unfold recordsOf
  rw [List.map_map]
  have : (VRecord.rid ∘ fun p : String × ChunkMeta =>
      ({ rid := recordId p.2, text := p.1, meta := p.2.toMetadata } : VRecord)) =
      fun p : String × ChunkMeta => recordId p.2 := rfl
  rw [this]
  calc (chunks.zip metadatas).map (fun p => recordId p.2)
      = ((chunks.zip metadatas).map Prod.snd).map recordId := by
        rw [List.map_map]; rfl
    _ = metadatas.map recordId := by
        rw [List.map_snd_zip chunks metadatas (le_of_eq hlen.symm)]

theorem addDocumentsCore_eq (chunks : List String)
    (metadatas : List ChunkMeta) (col : List VRecord)
    (hlen : chunks.length = metadatas.length)
    (hnd : (metadatas.map recordId).Nodup) :
    (addDocumentsCore chunks metadatas col).2 =
      removeIds (metadatas.map recordId) col ++ recordsOf chunks metadatas := by
  unfold addDocumentsCore
  have hridmap := recordsOf_map_rid chunks metadatas hlen
  have h1 : (chunksOf 100 ((metadatas.map recordId).filter fun i =>
      col.any fun r => r.rid == i)).foldl (fun c b => removeIds b c) col =
      removeIds (metadatas.map recordId) col := by
    rw [foldl_removeIds, chunksOf_join 100 (by norm_num)]
    exact removeIds_filter_eq _ col
  simp only [h1]
  rw [foldl_collectionAdd _ _ ?_ ?_]
  · rw [chunksOf_join 100 (by norm_num)]
  · rw [chunksOf_join 100 (by norm_num), hridmap]
    exact hnd
  · rw [chunksOf_join 100 (by norm_num)]
    intro r hr c hc he
    have hrid : r.rid ∈ metadatas.map recordId := by
      rw [← hridmap]
      exact List.mem_map_of_mem VRecord.rid hr
    unfold removeIds at hc
    rw [List.mem_filter] at hc
    have hcont := hc.2
    rw [Bool.not_eq_true', List.contains_eq_any_beq, List.any_eq_false] at hcont
    have hfalse := hcont r.rid hrid
    rw [he, beq_self_eq_true] at hfalse
    exact hfalse rfl

theorem removeIds_nil (col : List VRecord) : removeIds [] col = col := by
  simp [removeIds]

theorem removeIds_append (ids : List String) (a b : List VRecord) :
    removeIds ids (a ++ b) = removeIds ids a ++ removeIds ids b := by
  simp [removeIds, List.filter_append]

theorem removeIds_recordsOf (chunks : List String)
    (metadatas : List ChunkMeta) :
    removeIds (metadatas.map recordId) (recordsOf chunks metadatas) = [] := by
  rw [removeIds, List.filter_eq_nil_iff]
  intro r hr
  unfold recordsOf at hr
  rw [List.mem_map] at hr
  obtain ⟨⟨c, m⟩, hp, hr⟩ := hr
  have hmem : r.rid ∈ metadatas.map recordId := by
    rw [← hr]
    exact List.mem_map_of_mem recordId (List.of_mem_zip hp).2
  simp only [Bool.not_eq_true', Bool.not_eq_false,
    List.contains_eq_any_beq, List.any_eq_true]
  exact ⟨r.rid, hmem, by rw [beq_iff_eq]⟩

/-- The shared add path is idempotent: running it a second time over the
very same chunks and metadata removes exactly the records the first run
inserted and re-inserts them. -/
theorem addDocumentsCore_idem (chunks : List String)
    (metadatas : List ChunkMeta) (col : List VRecord)
    (hlen : chunks.length = metadatas.length)
    (hnd : (metadatas.map recordId).Nodup) :
    (addDocumentsCore chunks metadatas
      (addDocumentsCore chunks metadatas col).2).2 =
      (addDocumentsCore chunks metadatas col).2 := by
  rw [addDocumentsCore_eq chunks metadatas col hlen hnd,
    addDocumentsCore_eq chunks metadatas _ hlen hnd,
    removeIds_append, removeIds_removeIds, removeIds_recordsOf,
    List.append_nil]

theorem makeMetadatas_length (filename : String) (pdf_id : Nat)
    (batch_id : String) (now : ℚ) (chunks : List String)
    (page_numbers : List Nat) :
    (makeMetadatas filename pdf_id batch_id now chunks page_numbers).length =
      chunks.length := by
  simp [makeMetadatas]

/-- C10: with neither a (truthy) filter nor a non-empty id list, `delete`
returns `False` and the stored records are untouched, on both the inline
`VectorStore` and the Chroma backend (`vector_store.py` lines 420-422,
`chroma_backend.py` lines 257-259). -/
theorem claim_c10 (col : List VRecord) :
    VectorStore.delete [] [] col = (false, col) ∧
    ChromaBackend.delete [] [] col = (false, col) := by
  exact ⟨rfl, rfl⟩

/-- C3 is false on the Lance backend: `LanceVectorBackend.add_documents`
appends without deleting records that share an incoming id.  Adding a
chunk whose derived id `doc_1_b_0` is already stored leaves two records
with that id in the table. -/
theorem claim_c3_counterexample :
    ridCount ((LanceBackend.add_documents ["x"]
        [⟨"a.pdf", "b_0", 1, 1, "b", 0, 1, 0⟩]
        (some [⟨"doc_1_b_0", "x",
          ChunkMeta.toMetadata ⟨"a.pdf", "b_0", 1, 1, "b", 0, 1, 0⟩⟩])).2.getD [])
      "doc_1_b_0" = 2 := by
  decide

/-- C3 (amended): on the Chroma backend every stored record sharing an
incoming id is deleted before the replacement records are appended, so —
for pairwise-distinct incoming ids and a duplicate-free collection — the
collection holds at most one record per id after `add_documents`.  The
Lance backend appends without deleting and does not satisfy this. -/
theorem claim_c3 (chunks : List String) (metadatas : List ChunkMeta)
    (col : List VRecord)
    (hlen : chunks.length = metadatas.length)
    (hnd : (metadatas.map recordId).Nodup)
    (hcol : (col.map VRecord.rid).Nodup) :
    (ChromaBackend.add_documents chunks metadatas col).2 =
      removeIds (metadatas.map recordId) col ++ recordsOf chunks metadatas
    ∧ ∀ i, ridCount (ChromaBackend.add_documents chunks metadatas col).2 i ≤ 1 := by
  have hres : (ChromaBackend.add_documents chunks metadatas col).2 =
      removeIds (metadatas.map recordId) col ++ recordsOf chunks metadatas := by
    unfold ChromaBackend.add_documents
    rcases chunks with _ | ⟨c, cs⟩
    · have hm : metadatas = [] := by
        rw [List.length_nil] at hlen
        exact List.eq_nil_of_length_eq_zero hlen.symm
      subst hm
      simp [removeIds_nil, recordsOf]
    · rw [if_neg (by simp)]
      exact addDocumentsCore_eq (c :: cs) metadatas col hlen hnd
  refine ⟨hres, ?_⟩
  intro i
  rw [hres]
  have hnodup : ((removeIds (metadatas.map recordId) col ++
      recordsOf chunks metadatas).map VRecord.rid).Nodup := by
    rw [List.map_append, List.nodup_append]
    refine ⟨?_, ?_, ?_⟩
    · exact ((List.filter_sublist col).map VRecord.rid).nodup hcol
    · rw [recordsOf_map_rid chunks metadatas hlen]
      exact hnd
    · intro a ha hb
      rw [recordsOf_map_rid chunks metadatas hlen] at hb
      rw [List.mem_map] at ha
      obtain ⟨r, hr, hra⟩ := ha
      unfold removeIds at hr
      rw [List.mem_filter] at hr
      have hcont := hr.2
      rw [Bool.not_eq_true', List.contains_eq_any_beq,
        List.any_eq_false] at hcont
      have := hcont a (by exact hra ▸ hb)
      rw [hra, beq_self_eq_true] at this
      exact this rfl
  rw [List.nodup_iff_count_le_one] at hnodup
  exact hnodup i

/-- C2 is false as stated: `process_pdf` draws a fresh random batch id per
run (`pdf_processor.py` line 360), so two re-processing runs over the same
chunk text produce different record ids, and the second
`add_documents` grows the collection from 1 to 2 records instead of
leaving the count unchanged. -/
theorem claim_c2_counterexample :
    (makeMetadatas "a.pdf" 1 "aaaaaaaa" 0 ["hello"] [1]).map recordId ≠
      (makeMetadatas "a.pdf" 1 "bbbbbbbb" 0 ["hello"] [1]).map recordId
    ∧ ((VectorStore.add_documents ["hello"]
        (makeMetadatas "a.pdf" 1 "aaaaaaaa" 0 ["hello"] [1]) []).2).length = 1
    ∧ ((VectorStore.add_documents ["hello"]
        (makeMetadatas "a.pdf" 1 "bbbbbbbb" 0 ["hello"] [1])
        ((VectorStore.add_documents ["hello"]
          (makeMetadatas "a.pdf" 1 "aaaaaaaa" 0 ["hello"] [1]) []).2)).2).length = 2 := by
  have e1 := addDocumentsCore_eq ["hello"]
    (makeMetadatas "a.pdf" 1 "aaaaaaaa" 0 ["hello"] [1]) [] (by decide) (by decide)
  have e2 := addDocumentsCore_eq ["hello"]
    (makeMetadatas "a.pdf" 1 "bbbbbbbb" 0 ["hello"] [1])
    ((VectorStore.add_documents ["hello"]
      (makeMetadatas "a.pdf" 1 "aaaaaaaa" 0 ["hello"] [1]) []).2)
    (by decide) (by decide)
  refine ⟨by decide, ?_, ?_⟩
  · show (addDocumentsCore ["hello"]
      (makeMetadatas "a.pdf" 1 "aaaaaaaa" 0 ["hello"] [1]) []).2.length = 1
    rw [e1]
    decide
  · show (addDocumentsCore ["hello"]
      (makeMetadatas "a.pdf" 1 "bbbbbbbb" 0 ["hello"] [1])
      ((VectorStore.add_documents ["hello"]
        (makeMetadatas "a.pdf" 1 "aaaaaaaa" 0 ["hello"] [1]) []).2)).2.length = 2
    rw [e2]
    show ((removeIds _ (addDocumentsCore ["hello"]
      (makeMetadatas "a.pdf" 1 "aaaaaaaa" 0 ["hello"] [1]) []).2) ++ _).length = 2
    rw [e1]
    decide

/-- C2 (amended): record ids depend only on the document id, the batch id
and the chunk index, so two runs that reuse the same batch id over
identical chunk text derive identical ids, and with identical ids
`add_documents` is idempotent: for every N ≥ 0 further re-runs the
collection (and hence its total count) stays exactly what it was after
the first run.  Runs with distinct batch ids instead accumulate. -/
theorem claim_c2 (filename : String) (pdf_id : Nat) (batch : String)
    (t1 t2 : ℚ) (chunks : List String) (page_numbers : List Nat)
    (col : List VRecord)
    (hnd : ((makeMetadatas filename pdf_id batch t1 chunks page_numbers).map
      recordId).Nodup) :
    ((makeMetadatas filename pdf_id batch t1 chunks page_numbers).map recordId =
      (makeMetadatas filename pdf_id batch t2 chunks page_numbers).map recordId)
    ∧ ∀ N : Nat,
      ((fun c => (VectorStore.add_documents chunks
          (makeMetadatas filename pdf_id batch t1 chunks page_numbers) c).2)^[N]
        ((VectorStore.add_documents chunks
          (makeMetadatas filename pdf_id batch t1 chunks page_numbers) col).2)).length =
      ((VectorStore.add_documents chunks
        (makeMetadatas filename pdf_id batch t1 chunks page_numbers) col).2).length := by
  constructor
  · simp [makeMetadatas, recordId, List.map_map]
  · intro N
    have hlen : chunks.length =
        (makeMetadatas filename pdf_id batch t1 chunks page_numbers).length :=
      (makeMetadatas_length filename pdf_id batch t1 chunks page_numbers).symm
    have hidem := addDocumentsCore_idem chunks
      (makeMetadatas filename pdf_id batch t1 chunks page_numbers) col hlen hnd
    exact congrArg List.length (Function.iterate_fixed hidem N)

/-- Concrete instantiation of the amended C2 theorem: one chunk, batch id
reused, every hypothesis discharged by evaluation. -/
theorem claim_c2_witness :
    ((makeMetadatas "a.pdf" 1 "b" 0 ["x"] [1]).map recordId =
      (makeMetadatas "a.pdf" 1 "b" 1 ["x"] [1]).map recordId)
    ∧ ∀ N : Nat,
      ((fun c => (VectorStore.add_documents ["x"]
          (makeMetadatas "a.pdf" 1 "b" 0 ["x"] [1]) c).2)^[N]
        ((VectorStore.add_documents ["x"]
          (makeMetadatas "a.pdf" 1 "b" 0 ["x"] [1]) []).2)).length =
      ((VectorStore.add_documents ["x"]
        (makeMetadatas "a.pdf" 1 "b" 0 ["x"] [1]) []).2).length :=
  claim_c2 "a.pdf" 1 "b" 0 1 ["x"] [1] [] (by decide)

/-- Concrete instantiation of the amended C3 theorem. -/
theorem claim_c3_witness :
    (ChromaBackend.add_documents ["x"]
        [⟨"a.pdf", "b_0", 1, 1, "b", 0, 1, 0⟩] []).2 =
      removeIds ([⟨"a.pdf", "b_0", 1, 1, "b", 0, 1, 0⟩].map recordId) [] ++
        recordsOf ["x"] [⟨"a.pdf", "b_0", 1, 1, "b", 0, 1, 0⟩]
    ∧ ∀ i, ridCount (ChromaBackend.add_documents ["x"]
        [⟨"a.pdf", "b_0", 1, 1, "b", 0, 1, 0⟩] []).2 i ≤ 1 :=
  claim_c3 ["x"] [⟨"a.pdf", "b_0", 1, 1, "b", 0, 1, 0⟩] [] rfl
    (by decide) (by decide)

/-- C1: evaluation at the failing input.  A one-page document whose page
yields empty text natively and empty text from OCR ends the run with
`blacklisted=true, processed=false, processing=false` (first half of the
claim, which holds) — but `_handle_candidate` on the resulting record
still computes `needs_reprocess = True` (it never consults `blacklisted`
and `processed` is `False`), re-marks the record `processing=True` and
dispatches it to the worker, contradicting the claim's second half. -/
theorem claim_c1 :
    (process_pdf ⟨[⟨"", [], true, some ""⟩], true, 0, fun s => [s], true⟩).outcome =
      Outcome.blacklisted
    ∧ (process_pdf ⟨[⟨"", [], true, some ""⟩], true, 0, fun s => [s],
        true⟩).flags.blacklisted = true
    ∧ (process_pdf ⟨[⟨"", [], true, some ""⟩], true, 0, fun s => [s],
        true⟩).flags.processed = false
    ∧ (process_pdf ⟨[⟨"", [], true, some ""⟩], true, 0, fun s => [s],
        true⟩).flags.processing = false
    ∧ (_handle_candidate
        (some ⟨1, "a.pdf", "/watch/a.pdf", 10, some 7, false, false, true, 70⟩)
        "a.pdf" "/watch/a.pdf" 10 5 8 2).1 =
      [WatchEvent.markReprocess 1,
       WatchEvent.purgeVectors [("pdf_id", MVal.num 1)],
       WatchEvent.enqueue 1]
    ∧ ((_handle_candidate
        (some ⟨1, "a.pdf", "/watch/a.pdf", 10, some 7, false, false, true, 70⟩)
        "a.pdf" "/watch/a.pdf" 10 5 8 2).2.map WDoc.processing) = some true := by
  decide

/-- C7 is false as stated: for a changed existing record the watcher's
first action is the database commit that re-marks the record
`processing=True` (event index 0); the vector purge only happens after it
(event index 1), not before. -/
theorem claim_c7_counterexample :
    ((_handle_candidate
        (some ⟨1, "a.pdf", "/watch/a.pdf", 10, some 0, true, false, false, 100⟩)
        "a.pdf" "/watch/a.pdf" 11 5 6 2).1)[0]? =
      some (WatchEvent.markReprocess 1)
    ∧ ((_handle_candidate
        (some ⟨1, "a.pdf", "/watch/a.pdf", 10, some 0, true, false, false, 100⟩)
        "a.pdf" "/watch/a.pdf" 11 5 6 2).1)[1]? =
      some (WatchEvent.purgeVectors [("pdf_id", MVal.num 1)]) := by
  decide

/-- C7 (amended): for every changed existing candidate the watcher
re-marks the record `processing=True, processed=False` and purges the
prior vector records with a document-id filter after that commit but
before dispatching the document to a worker: the emitted actions are
exactly re-mark, purge, enqueue, in that order. -/
theorem claim_c7 (d : WDoc) (dn ap : String) (fs : Nat) (mt now : ℚ)
    (nid : Nat) (hproc : d.processing = false)
    (hneeds : needs_reprocess d fs mt = true) :
    (_handle_candidate (some d) dn ap fs mt now nid).1 =
      [WatchEvent.markReprocess d.wid,
       WatchEvent.purgeVectors [("pdf_id", MVal.num d.wid)],
       WatchEvent.enqueue d.wid]
    ∧ ((_handle_candidate (some d) dn ap fs mt now nid).2.map
        WDoc.processing) = some true
    ∧ ((_handle_candidate (some d) dn ap fs mt now nid).2.map
        WDoc.processed) = some false := by
  unfold _handle_candidate
  simp [hproc, hneeds]

/-- Concrete instantiation of the amended C7 theorem: a processed record
whose stored size differs from the file on disk. -/
theorem claim_c7_witness :
    (_handle_candidate
        (some ⟨3, "b.pdf", "/watch/b.pdf", 10, some 0, true, false, false, 100⟩)
        "b.pdf" "/watch/b.pdf" 11 5 6 9).1 =
      [WatchEvent.markReprocess 3,
       WatchEvent.purgeVectors [("pdf_id", MVal.num 3)],
       WatchEvent.enqueue 3]
    ∧ ((_handle_candidate
        (some ⟨3, "b.pdf", "/watch/b.pdf", 10, some 0, true, false, false, 100⟩)
        "b.pdf" "/watch/b.pdf" 11 5 6 9).2.map WDoc.processing) = some true
    ∧ ((_handle_candidate
        (some ⟨3, "b.pdf", "/watch/b.pdf", 10, some 0, true, false, false, 100⟩)
        "b.pdf" "/watch/b.pdf" 11 5 6 9).2.map WDoc.processed) = some false :=
  claim_c7 ⟨3, "b.pdf", "/watch/b.pdf", 10, some 0, true, false, false, 100⟩
    "b.pdf" "/watch/b.pdf" 11 5 6 9 rfl (by decide)

/-- C4 is false as stated: blacklisting a completed document
(`add_blacklist`, `main.py` lines 620-629) sets `blacklisted=True` and
`processing=False` but leaves `processed=True`, so the reachable state
`(processed=true, processing=false, blacklisted=true)` violates
"a document with blacklisted=true never has processed=true".  Trace:
upload, complete the run, blacklist the document. -/
theorem claim_c4_counterexample :
    FlagReach ⟨true, false, true⟩
    ∧ (⟨true, false, true⟩ : FlagSt).blacklisted = true
    ∧ (⟨true, false, true⟩ : FlagSt).processed = true := by
  refine ⟨?_, rfl, rfl⟩
  have h1 : FlagReach ⟨false, true, false⟩ :=
    FlagReach.init _ FlagInit.upload
  have h2 : FlagReach ⟨true, false, false⟩ :=
    FlagReach.step _ _ h1 (FlagStep.processComplete ⟨false, true, false⟩)
  exact FlagReach.step _ _ h2 (FlagStep.addBlacklist ⟨true, false, false⟩)

/-- C4 (amended): under every modelled operation the flags `processing`
and `processed` are never both true in a reachable state; the second half
of the original claim fails because blacklisting does not clear
`processed` (see the counterexample). -/
theorem claim_c4 (s : FlagSt) (h : FlagReach s) :
    ¬(s.processing = true ∧ s.processed = true) := by
  induction h with
  | init s hi => cases hi <;> simp
  | step s t _ hstep ih =>
    cases hstep with
    | watcherReprocess h => simp
    | processBegin h => simp
    | processComplete => simp
    | processFail => simp
    | processBlacklist => simp
    | addBlacklist => simp
    | removeBlacklist => exact ih
    | resetInterrupted => simp

/-- Concrete instantiation of the amended C4 theorem at a freshly
uploaded record. -/
theorem claim_c4_witness :
    ¬((⟨false, true, false⟩ : FlagSt).processing = true ∧
      (⟨false, true, false⟩ : FlagSt).processed = true) :=
  claim_c4 ⟨false, true, false⟩ (FlagReach.init _ FlagInit.upload)

/-- C9: on a non-empty collection, `search` returns exactly the backend's
relevance-ordered results at positions `k .. k+n-1` (hence at most `n`
results), fetches `n+k+1` candidates, and reports `has_more = true`
exactly when the backend's ordering holds at least one result beyond
position `k+n-1`. -/
theorem claim_c9 (total : Nat) (ranked : List VRecord) (n k : Int)
    (hn : 0 ≤ n) (hk : 0 ≤ k) (htotal : total ≠ 0) :
    (search total ranked n k).documents =
      (ranked.drop k.toNat).take n.toNat
    ∧ (search total ranked n k).documents.length ≤ n.toNat
    ∧ (search total ranked n k).has_more =
        some (decide (k.toNat + n.toNat < ranked.length))
    ∧ (search total ranked n k).total_fetched =
        some (min (n.toNat + k.toNat + 1) ranked.length) := by
  have hmaxn : max n 0 = n := max_eq_left hn
  have hmaxk : max k 0 = k := max_eq_left hk
  unfold search
  rw [if_neg htotal]
  simp only [hmaxn, hmaxk]
  refine ⟨?_, ?_, ?_, ?_⟩
  · by_cases hpos : 0 < n.toNat
    · rw [if_pos hpos, List.drop_take, List.take_take]
      congr 1
      omega
    · rw [if_neg hpos]
      have hzero : n.toNat = 0 := by omega
      rw [hzero, List.take_zero]
  · by_cases hpos : 0 < n.toNat
    · rw [if_pos hpos, List.length_take]
      omega
    · rw [if_neg hpos]
      simp
  · simp only [List.length_take]
    congr 1
    rw [decide_eq_decide]
    omega
  · rw [List.length_take]

/-- Concrete instantiation of the C9 theorem: three stored records,
`limit = 1`, `offset = 1`. -/
theorem claim_c9_witness :
    (search 3 [⟨"a", "ta", []⟩, ⟨"b", "tb", []⟩, ⟨"c", "tc", []⟩] 1 1).documents =
      (([⟨"a", "ta", []⟩, ⟨"b", "tb", []⟩, ⟨"c", "tc", []⟩] :
        List VRecord).drop 1).take 1
    ∧ (search 3 [⟨"a", "ta", []⟩, ⟨"b", "tb", []⟩, ⟨"c", "tc", []⟩] 1 1).documents.length ≤ 1
    ∧ (search 3 [⟨"a", "ta", []⟩, ⟨"b", "tb", []⟩, ⟨"c", "tc", []⟩] 1 1).has_more =
        some (decide (1 + 1 < ([⟨"a", "ta", []⟩, ⟨"b", "tb", []⟩, ⟨"c", "tc", []⟩] :
          List VRecord).length))
    ∧ (search 3 [⟨"a", "ta", []⟩, ⟨"b", "tb", []⟩, ⟨"c", "tc", []⟩] 1 1).total_fetched =
        some (min 3 ([⟨"a", "ta", []⟩, ⟨"b", "tb", []⟩, ⟨"c", "tc", []⟩] :
          List VRecord).length) :=
  claim_c9 3 [⟨"a", "ta", []⟩, ⟨"b", "tb", []⟩, ⟨"c", "tc", []⟩] 1 1
    (by decide) (by decide) (by decide)

/-- C5: the OCR fallback fires only on document-wide emptiness.  For a run
whose pages all parse without a per-page exception: (1) if the fallback
fires, every page's natively extracted text is blank after stripping;
(2) if the joined text is non-blank, the run is exactly the no-OCR tail
over the parse-phase texts — no page is OCR'd; and (3) a page with blank
native text and no extracted images contributes no text at all (so in a
3-page document with text on pages 1 and 3 and an image-only blank page 2,
page 2 is neither OCR'd nor a source of content). -/
theorem claim_c5 (inp : RunInput)
    (hok : ∀ p ∈ inp.pages, p.parseOk = true)
    (hfe : inp.fileExists = true) :
    (ocrTriggered inp.pages = true →
      ∀ p ∈ inp.pages, isBlank p.nativeText = true)
    ∧ (ocrTriggered inp.pages = false →
        process_pdf inp = processTail inp (parsedTexts inp.pages)
          ([⟨0, "Processing"⟩, ⟨0, "Parsing PDF"⟩] ++
            pageParseEmits inp.pages.length inp.pages)
          (lastProgress 0 (pageParseEmits inp.pages.length inp.pages)))
    ∧ (∀ num : Nat, ∀ p ∈ inp.pages, isBlank p.nativeText = true →
        p.imagesMarkdown = [] → pageTexts num p = []) := by
  refine ⟨?_, ?_, ?_⟩
  · intro htrig p hp
    by_contra hblank
    rw [Bool.not_eq_true] at hblank
    unfold ocrTriggered at htrig
    rw [isBlank_joinNL, List.all_eq_true] at htrig
    have hmem : p.nativeText ∈ (parsedTexts inp.pages).map Prod.fst := by
      rw [List.mem_iff_getElem] at hp
      obtain ⟨i, hi, hgi⟩ := hp
      rw [List.mem_map]
      refine ⟨(p.nativeText, i + 1), ?_, rfl⟩
      unfold parsedTexts
      rw [List.mem_flatMap]
      refine ⟨(i, p), ?_, ?_⟩
      · rw [List.mem_iff_getElem]
        exact ⟨i, by simpa using hi, by simp [hgi]⟩
      · rw [hok p (hgi ▸ List.getElem_mem hi)]
        unfold pageTexts
        simp only [if_pos]
        rw [hblank]
        simp
    have := htrig p.nativeText hmem
    rw [this] at hblank
    exact Bool.noConfusion hblank
  · intro hno
    unfold process_pdf
    rw [hfe]
    simp only [Bool.not_true, Bool.false_eq_true, if_false, hno]
    rfl
  · intro num p _ hblank himg
    unfold pageTexts
    rw [hblank, himg]
    simp

/-- Concrete instantiation of the C5 theorem: a 3-page document with text
on pages 1 and 3 and a blank image-free page 2 takes the no-OCR path and
page 2 contributes nothing; a document whose single page is blank
triggers the fallback and indeed has only blank pages. -/
theorem claim_c5_witness :
    (process_pdf ⟨[⟨"A", [], true, none⟩, ⟨"", [], true, some "unused"⟩,
        ⟨"C", [], true, none⟩], true, 0, fun s => [s], true⟩ =
      processTail ⟨[⟨"A", [], true, none⟩, ⟨"", [], true, some "unused"⟩,
          ⟨"C", [], true, none⟩], true, 0, fun s => [s], true⟩
        (parsedTexts [⟨"A", [], true, none⟩, ⟨"", [], true, some "unused"⟩,
          ⟨"C", [], true, none⟩])
        ([⟨0, "Processing"⟩, ⟨0, "Parsing PDF"⟩] ++
          pageParseEmits 3 [⟨"A", [], true, none⟩, ⟨"", [], true, some "unused"⟩,
            ⟨"C", [], true, none⟩])
        (lastProgress 0 (pageParseEmits 3 [⟨"A", [], true, none⟩,
          ⟨"", [], true, some "unused"⟩, ⟨"C", [], true, none⟩])))
    ∧ pageTexts 2 ⟨"", [], true, some "unused"⟩ = []
    ∧ (∀ p ∈ [(⟨" ", [], true, some ""⟩ : Page)], isBlank p.nativeText = true) := by
  refine ⟨?_, ?_, ?_⟩
  · exact (claim_c5 ⟨[⟨"A", [], true, none⟩, ⟨"", [], true, some "unused"⟩,
      ⟨"C", [], true, none⟩], true, 0, fun s => [s], true⟩
      (by decide) rfl).2.1 (by decide)
  · exact (claim_c5 ⟨[⟨"A", [], true, none⟩, ⟨"", [], true, some "unused"⟩,
      ⟨"C", [], true, none⟩], true, 0, fun s => [s], true⟩
      (by decide) rfl).2.2 2 ⟨"", [], true, some "unused"⟩ (by decide) rfl rfl
  · exact (claim_c5 ⟨[⟨" ", [], true, some ""⟩], true, 0, fun s => [s], true⟩
      (by decide) rfl).1 (by decide)

theorem rebuildDocMetas_length (split : String → List String)
    (batch_id : String) (now : ℚ) (d : DbDoc) :
    ((docPageChunks split d).map Prod.fst).length =
      (rebuildDocMetas split batch_id now d).length := by
  simp [rebuildDocMetas]

theorem removeIds_of_disjoint (ids : List String) (col : List VRecord)
    (h : ∀ r ∈ col, r.rid ∉ ids) : removeIds ids col = col := by
  unfold removeIds
  rw [List.filter_eq_self]
  intro r hr
  simp only [Bool.not_eq_true', List.contains_eq_any_beq, List.any_eq_false]
  intro x hx
  rw [beq_iff_eq]
  intro he
  exact h r hr (he ▸ hx)

theorem rebuildStep_eq (split : String → List String) (batchOf : Nat → String)
    (now : ℚ) (d : DbDoc) (c : List VRecord)
    (hnd : eligibleDoc split d = true →
      ((rebuildDocMetas split (batchOf d.did) now d).map recordId).Nodup) :
    (if d.blacklisted then c
     else if !(markdown_is_current d) then c
     else if d.pages.isEmpty then c
     else if ((docPageChunks split d).map Prod.fst).isEmpty then c
     else (ChromaBackend.add_documents
       ((docPageChunks split d).map Prod.fst)
       (rebuildDocMetas split (batchOf d.did) now d) c).2) =
    (if eligibleDoc split d then
      removeIds ((rebuildDocMetas split (batchOf d.did) now d).map recordId) c
        ++ docRecords split batchOf now d
     else c) := by
  unfold eligibleDoc
  by_cases h1 : d.blacklisted = true
  · simp [h1]
  · by_cases h2 : markdown_is_current d = true
    · by_cases h3 : d.pages.isEmpty = true
      · simp [h1, h2, h3]
      · by_cases h4 : ((docPageChunks split d).map Prod.fst).isEmpty = true
        · simp [h1, h2, h3, h4]
        · have hlhs : (if d.blacklisted then c
              else if !(markdown_is_current d) then c
              else if d.pages.isEmpty then c
              else if ((docPageChunks split d).map Prod.fst).isEmpty then c
              else (ChromaBackend.add_documents
                ((docPageChunks split d).map Prod.fst)
                (rebuildDocMetas split (batchOf d.did) now d) c).2) =
              (ChromaBackend.add_documents
                ((docPageChunks split d).map Prod.fst)
                (rebuildDocMetas split (batchOf d.did) now d) c).2 := by
            simp [h1, h2, h3, h4]
          rw [hlhs]
          have helig : (!d.blacklisted && markdown_is_current d &&
              !d.pages.isEmpty &&
              !((docPageChunks split d).map Prod.fst).isEmpty) = true := by
            simp [h1, h2, h3, h4]
          rw [if_pos helig]
          unfold ChromaBackend.add_documents
          rw [if_neg h4]
          rw [addDocumentsCore_eq _ _ _
            (rebuildDocMetas_length split (batchOf d.did) now d)
            (hnd (by unfold eligibleDoc; simp [h1, h2, h3, h4]))]
          rfl
    · simp [h1, h2]

theorem rebuild_foldl_eq (split : String → List String)
    (batchOf : Nat → String) (now : ℚ) (ds : List DbDoc)
    (c0 : List VRecord)
    (hnd : ((ds.filter (eligibleDoc split)).flatMap
      (fun d => (rebuildDocMetas split (batchOf d.did) now d).map
        recordId)).Nodup)
    (hdisj : ∀ r ∈ c0, ∀ d ∈ ds.filter (eligibleDoc split),
      r.rid ∉ (rebuildDocMetas split (batchOf d.did) now d).map recordId) :
    ds.foldl (fun c d =>
      if d.blacklisted then c
      else if !(markdown_is_current d) then c
      else if d.pages.isEmpty then c
      else if ((docPageChunks split d).map Prod.fst).isEmpty then c
      else (ChromaBackend.add_documents
        ((docPageChunks split d).map Prod.fst)
        (rebuildDocMetas split (batchOf d.did) now d) c).2) c0 =
    c0 ++ (ds.filter (eligibleDoc split)).flatMap
      (fun d => docRecords split batchOf now d) := by
  induction ds generalizing c0 with
  | nil => simp
  | cons d rest ih =>
    rw [List.foldl_cons]
    by_cases hel : eligibleDoc split d = true
    · rw [List.filter_cons_of_pos hel] at hnd hdisj
      rw [List.filter_cons_of_pos hel, List.flatMap_cons]
      rw [List.flatMap_cons, List.nodup_append] at hnd
      obtain ⟨hhead, htail, hdis⟩ := hnd
      rw [rebuildStep_eq split batchOf now d c0 (fun _ => hhead),
        if_pos hel]
      have hc0 : removeIds ((rebuildDocMetas split (batchOf d.did) now
          d).map recordId) c0 = c0 := by
        apply removeIds_of_disjoint
        intro r hr
        exact hdisj r hr d (List.mem_cons_self d _)
      rw [hc0]
      rw [ih (c0 ++ docRecords split batchOf now d) htail ?_]
      · rw [List.append_assoc]
      · intro r hr d' hd'
        rcases List.mem_append.mp hr with hrc | hrd
        · exact hdisj r hrc d' (List.mem_cons_of_mem d hd')
        · intro hmem
          have hidd : r.rid ∈ (rebuildDocMetas split (batchOf d.did)
              now d).map recordId := by
            unfold docRecords at hrd
            have := List.mem_map_of_mem VRecord.rid hrd
            rw [recordsOf_map_rid _ _
              (rebuildDocMetas_length split (batchOf d.did) now d)] at this
            exact this
          apply hdis hidd
          rw [List.mem_flatMap]
          exact ⟨d', hd', hmem⟩
    · rw [List.filter_cons_of_neg hel] at hnd hdisj
      rw [List.filter_cons_of_neg hel]
      rw [rebuildStep_eq split batchOf now d c0 (fun h => absurd h hel),
        if_neg hel]
      exact ih c0 hnd hdisj

/-- C6: `rebuild_from_markdown` is a no-op when the index already holds at
least one record; on an empty index it reconstructs the vector records
strictly from the persisted markdown rows of exactly the documents that
are `processed`, not blacklisted, whose markdown is still current and that
have at least one (chunk-producing) markdown row; and for a document whose
file exists, has a truthy path and an upload timestamp, "current" is
precisely "file modification time does not exceed the stored
last-processed timestamp". -/
theorem claim_c6 (split : String → List String) (batchOf : Nat → String)
    (now : ℚ) (docs : List DbDoc) (col : List VRecord)
    (hnd : (((docs.filter (fun d => d.processed)).filter
        (eligibleDoc split)).flatMap
      (fun d => (rebuildDocMetas split (batchOf d.did) now d).map
        recordId)).Nodup) :
    (0 < col.length → rebuild_from_markdown split batchOf now docs col = col)
    ∧ rebuild_from_markdown split batchOf now docs [] =
        ((docs.filter (fun d => d.processed)).filter
          (eligibleDoc split)).flatMap
          (fun d => docRecords split batchOf now d)
    ∧ (∀ d : DbDoc, d.file_path ≠ "" → ∀ m t : ℚ, d.fsMtime = some m →
        d.uploaded_at = some t → markdown_is_current d = decide (m ≤ t)) := by
  refine ⟨?_, ?_, ?_⟩
  · intro hpos
    unfold rebuild_from_markdown
    rw [if_pos hpos]
  · unfold rebuild_from_markdown
    rw [if_neg (by simp)]
    by_cases hemp : (docs.filter (fun d => d.processed)).isEmpty = true
    · rw [if_pos hemp]
      rw [List.isEmpty_iff] at hemp
      rw [hemp]
      simp
    · rw [if_neg hemp]
      rw [rebuild_foldl_eq split batchOf now _ [] hnd (by simp)]
      rw [List.nil_append]
  · intro d hpath m t hm ht
    unfold markdown_is_current
    rw [if_neg (by simpa using hpath), hm, ht]

/-- Concrete instantiation of the C6 theorem: one processed, current
document with a single markdown row; a non-empty index is untouched, an
empty index receives exactly that document's records, and the staleness
check is the mtime comparison. -/
theorem claim_c6_witness :
    rebuild_from_markdown (fun s => [s]) (fun _ => "rebuild-ab") 0
        [⟨1, "a.pdf", "/u/a.pdf", some 3, some 5, true, false,
          [⟨1, "hello"⟩]⟩] [⟨"x", "y", []⟩] = [⟨"x", "y", []⟩]
    ∧ rebuild_from_markdown (fun s => [s]) (fun _ => "rebuild-ab") 0
        [⟨1, "a.pdf", "/u/a.pdf", some 3, some 5, true, false,
          [⟨1, "hello"⟩]⟩] [] =
      (([(⟨1, "a.pdf", "/u/a.pdf", some 3, some 5, true, false,
          [⟨1, "hello"⟩]⟩ : DbDoc)].filter (fun d => d.processed)).filter
        (eligibleDoc (fun s => [s]))).flatMap
        (fun d => docRecords (fun s => [s]) (fun _ => "rebuild-ab") 0 d)
    ∧ markdown_is_current ⟨1, "a.pdf", "/u/a.pdf", some 3, some 5, true,
        false, [⟨1, "hello"⟩]⟩ = decide ((3 : ℚ) ≤ 5) := by
  have h := claim_c6 (fun s => [s]) (fun _ => "rebuild-ab") 0
    [⟨1, "a.pdf", "/u/a.pdf", some 3, some 5, true, false, [⟨1, "hello"⟩]⟩]
    [⟨"x", "y", []⟩] (by decide)
  exact ⟨h.1 (by decide), h.2.1,
    h.2.2 ⟨1, "a.pdf", "/u/a.pdf", some 3, some 5, true, false,
      [⟨1, "hello"⟩]⟩ (by decide) 3 5 rfl rfl⟩

/-! ## Lemmas about the throttle and the progress candidates -/

theorem attachTimesFrom_map_fst (τ : Nat → ℚ) (i : Nat)
    (es : List Emission) : (attachTimesFrom τ i es).map Prod.fst = es := by
  induction es generalizing i with
  | nil => rfl
  | cons e rest ih => simp [attachTimesFrom, ih]

theorem attachTimesFrom_append (τ : Nat → ℚ) (i : Nat)
    (l1 l2 : List Emission) :
    attachTimesFrom τ i (l1 ++ l2) =
      attachTimesFrom τ i l1 ++ attachTimesFrom τ (i + l1.length) l2 := by
  induction l1 generalizing i with
  | nil => simp [attachTimesFrom]
  | cons e rest ih =>
    show (e, τ i) :: attachTimesFrom τ (i + 1) (rest ++ l2) = _
    rw [ih (i + 1)]
    simp only [List.length_cons, List.cons_append]
    rw [show i + 1 + rest.length = i + (rest.length + 1) by omega]
    rfl

theorem throttleRun_sublist (m : Option Marker)
    (cs : List (Emission × ℚ)) :
    (throttleRun m cs).Sublist (cs.map Prod.fst) := by
  induction cs generalizing m with
  | nil => simp [throttleRun]
  | cons c rest ih =>
    cases m with
    | none =>
      exact List.Sublist.cons₂ c.1 (ih (some ⟨c.1.progress, c.1.status, c.2⟩))
    | some prev =>
      by_cases h : suppressed prev c = true
      · simp only [throttleRun, h, if_true]
        exact List.Sublist.cons c.1 (ih (some prev))
      · rw [Bool.not_eq_true] at h
        simp only [throttleRun, h, Bool.false_eq_true, if_false]
        exact List.Sublist.cons₂ c.1
          (ih (some ⟨c.1.progress, c.1.status, c.2⟩))

theorem suppressed_eq_false_of_far (prev : Marker) (c : Emission × ℚ)
    (h : prev.progress + 1/5 ≤ c.1.progress) :
    suppressed prev c = false := by
  unfold suppressed
  rw [Bool.eq_false_iff]
  intro habs
  rw [Bool.and_eq_true, Bool.and_eq_true] at habs
  obtain ⟨⟨_, habs2⟩, _⟩ := habs
  rw [decide_eq_true_eq] at habs2
  have h1 : (1 : ℚ)/5 ≤ c.1.progress - prev.progress := by linarith
  have h2 : (1 : ℚ)/5 ≤ |c.1.progress - prev.progress| :=
    le_trans h1 (le_abs_self _)
  linarith

theorem throttleRun_append_far (m : Option Marker)
    (cs : List (Emission × ℚ)) (c : Emission × ℚ)
    (hfar : ∀ e ∈ cs, e.1.progress + 1/5 ≤ c.1.progress)
    (hm : ∀ prev, m = some prev → prev.progress + 1/5 ≤ c.1.progress) :
    throttleRun m (cs ++ [c]) = throttleRun m cs ++ [c.1] := by
  induction cs generalizing m with
  | nil =>
    cases m with
    | none => rfl
    | some prev =>
      simp only [List.nil_append, throttleRun,
        suppressed_eq_false_of_far prev c (hm prev rfl),
        Bool.false_eq_true, if_false]
  | cons d rest ih =>
    cases m with
    | none =>
      simp only [List.cons_append, throttleRun, List.append_eq]
      rw [ih (some ⟨d.1.progress, d.1.status, d.2⟩)
        (fun e he => hfar e (List.mem_cons_of_mem d he))
        (fun prev hprev => by
          rw [Option.some_inj] at hprev
          rw [← hprev]
          exact hfar d (List.mem_cons_self d rest))]
    | some prev =>
      by_cases h : suppressed prev d = true
      · simp only [List.cons_append, throttleRun, h, if_true, List.append_eq]
        exact ih (some prev)
          (fun e he => hfar e (List.mem_cons_of_mem d he)) hm
      · rw [Bool.not_eq_true] at h
        simp only [List.cons_append, throttleRun, h, Bool.false_eq_true,
          if_false, List.append_eq]
        rw [ih (some ⟨d.1.progress, d.1.status, d.2⟩)
          (fun e he => hfar e (List.mem_cons_of_mem d he))
          (fun p hp => by
            rw [Option.some_inj] at hp
            rw [← hp]
            exact hfar d (List.mem_cons_self d rest))]

theorem lastProgress_mem (fb : ℚ) (B : List Emission) :
    lastProgress fb B = fb ∨ ∃ e ∈ B, lastProgress fb B = e.progress := by
  induction B with
  | nil => exact Or.inl rfl
  | cons b rest ih =>
    cases rest with
    | nil => exact Or.inr ⟨b, List.mem_cons_self b [], rfl⟩
    | cons r rest' =>
      have hstep : lastProgress fb (b :: r :: rest') =
          lastProgress fb (r :: rest') := by
        unfold lastProgress
        rw [List.getLast?_cons_cons]
      rw [hstep]
      rcases ih with h | ⟨e, he, hval⟩
      · exact Or.inl h
      · exact Or.inr ⟨e, List.mem_cons_of_mem b he, hval⟩

theorem lastProgress_mem_ne (fb : ℚ) (B : List Emission) (hne : B ≠ []) :
    ∃ e ∈ B, lastProgress fb B = e.progress := by
  induction B with
  | nil => exact absurd rfl hne
  | cons b rest ih =>
    cases rest with
    | nil => exact ⟨b, List.mem_cons_self b [], rfl⟩
    | cons r rest' =>
      have hstep : lastProgress fb (b :: r :: rest') =
          lastProgress fb (r :: rest') := by
        unfold lastProgress
        rw [List.getLast?_cons_cons]
      rw [hstep]
      obtain ⟨e, he, hval⟩ := ih (by simp)
      exact ⟨e, List.mem_cons_of_mem b he, hval⟩

theorem le_lastProgress (fb : ℚ) (B : List Emission)
    (hB : B.Pairwise progLE) :
    ∀ e ∈ B, e.progress ≤ lastProgress fb B := by
  induction B with
  | nil => intro e he; exact absurd he (List.not_mem_nil e)
  | cons b rest ih =>
    intro e he
    cases rest with
    | nil =>
      rcases List.mem_cons.mp he with h | h
      · rw [h]; exact le_refl _
      · exact absurd h (List.not_mem_nil e)
    | cons r rest' =>
      have hstep : lastProgress fb (b :: r :: rest') =
          lastProgress fb (r :: rest') := by
        unfold lastProgress
        rw [List.getLast?_cons_cons]
      rw [hstep]
      rw [List.pairwise_cons] at hB
      obtain ⟨hble, htail⟩ := hB
      rcases List.mem_cons.mp he with h | h
      · obtain ⟨x, hx, hval⟩ := lastProgress_mem_ne fb (r :: rest') (by simp)
        rw [hval, h]
        exact hble x hx
      · exact ih htail e h

theorem parseProgress_nonneg (n i : Nat) : 0 ≤ parseProgress n i := by
  unfold parseProgress
  apply mul_nonneg
  · exact div_nonneg (by positivity) (by positivity)
  · norm_num

theorem parseProgress_mono (n : Nat) {i j : Nat} (h : i ≤ j) :
    parseProgress n i ≤ parseProgress n j := by
  unfold parseProgress
  rcases Nat.eq_zero_or_pos n with hn | hn
  · subst hn
    simp
  · apply mul_le_mul_of_nonneg_right _ (by norm_num : (0 : ℚ) ≤ 50)
    rw [div_le_div_iff_of_pos_right (by exact_mod_cast hn)]
    exact_mod_cast Nat.add_le_add_right h 1

theorem parseProgress_le_50 (n i : Nat) (h : i + 1 ≤ n) :
    parseProgress n i ≤ 50 := by
  unfold parseProgress
  have hn : (0 : ℚ) < (n : ℚ) := by
    exact_mod_cast Nat.lt_of_lt_of_le (Nat.succ_pos i) h
  calc ((i + 1 : Nat) : ℚ) / (n : ℚ) * 50 ≤ 1 * 50 := by
        apply mul_le_mul_of_nonneg_right _ (by norm_num : (0 : ℚ) ≤ 50)
        rw [div_le_one hn]
        exact_mod_cast h
    _ = 50 := one_mul 50

theorem ocrProgress_ge_50 (n i : Nat) : 50 ≤ ocrProgress n i := by
  unfold ocrProgress
  apply le_min _ (by norm_num)
  have : (0 : ℚ) ≤ ((i + 1 : Nat) : ℚ) / ((max n 1 : Nat) : ℚ) * 20 := by
    positivity
  linarith

theorem ocrProgress_le_70 (n i : Nat) : ocrProgress n i ≤ 70 :=
  min_le_right _ _

theorem ocrProgress_mono (n : Nat) {i j : Nat} (h : i ≤ j) :
    ocrProgress n i ≤ ocrProgress n j := by
  unfold ocrProgress
  apply min_le_min _ le_rfl
  apply add_le_add_left
  apply mul_le_mul_of_nonneg_right _ (by norm_num : (0 : ℚ) ≤ 20)
  have hden : (0 : ℚ) < ((max n 1 : Nat) : ℚ) := by
    have : 1 ≤ max n 1 := le_max_right n 1
    exact_mod_cast Nat.lt_of_lt_of_le Nat.zero_lt_one this
  rw [div_le_div_iff_of_pos_right hden]
  exact_mod_cast Nat.add_le_add_right h 1

theorem pageParseEmitsFrom_mem (n : Nat) (i : Nat) (ps : List Page)
    (e : Emission) (he : e ∈ pageParseEmitsFrom n i ps) :
    ∃ j, i ≤ j ∧ j + 1 ≤ i + ps.length ∧ e.progress = parseProgress n j := by
  induction ps generalizing i with
  | nil => exact absurd he (List.not_mem_nil e)
  | cons p rest ih =>
    unfold pageParseEmitsFrom at he
    rcases List.mem_append.mp he with hh | ht
    · refine ⟨i, le_refl i, by simp, ?_⟩
      by_cases hp : p.parseOk = true
      · rw [if_pos hp] at hh
        rcases List.mem_singleton.mp hh with rfl
        rfl
      · rw [if_neg hp] at hh
        exact absurd hh (List.not_mem_nil e)
    · obtain ⟨j, hij, hlen, hval⟩ := ih (i + 1) ht
      exact ⟨j, by omega, by simp; omega, hval⟩

theorem pageParseEmitsFrom_pairwise (n : Nat) (i : Nat) (ps : List Page) :
    (pageParseEmitsFrom n i ps).Pairwise progLE := by
  induction ps generalizing i with
  | nil => exact List.Pairwise.nil
  | cons p rest ih =>
    unfold pageParseEmitsFrom
    rw [List.pairwise_append]
    refine ⟨?_, ih (i + 1), ?_⟩
    · by_cases hp : p.parseOk = true
      · rw [if_pos hp]
        exact List.pairwise_singleton progLE _
      · rw [if_neg hp]
        exact List.Pairwise.nil
    · intro a ha b hb
      obtain ⟨j, hij, _, hbval⟩ := pageParseEmitsFrom_mem n (i + 1) rest b hb
      have haval : a.progress = parseProgress n i := by
        by_cases hp : p.parseOk = true
        · rw [if_pos hp] at ha
          rcases List.mem_singleton.mp ha with rfl
          rfl
        · rw [if_neg hp] at ha
          exact absurd ha (List.not_mem_nil a)
      unfold progLE
      rw [haval, hbval]
      exact parseProgress_mono n (by omega)

theorem ocrEmitsFrom_mem (n : Nat) (i : Nat) (ps : List Page)
    (e : Emission) (he : e ∈ ocrEmitsFrom n i ps) :
    ∃ j, i ≤ j ∧ e.progress = ocrProgress n j := by
  induction ps generalizing i with
  | nil => exact absurd he (List.not_mem_nil e)
  | cons p rest ih =>
    unfold ocrEmitsFrom at he
    rcases List.mem_append.mp he with hh | ht
    · refine ⟨i, le_refl i, ?_⟩
      rcases hocr : p.ocrText with _ | t
      · rw [hocr] at hh
        exact absurd hh (List.not_mem_nil e)
      · rw [hocr] at hh
        rcases List.mem_singleton.mp hh with rfl
        rfl
    · obtain ⟨j, hij, hval⟩ := ih (i + 1) ht
      exact ⟨j, by omega, hval⟩

theorem ocrEmitsFrom_pairwise (n : Nat) (i : Nat) (ps : List Page) :
    (ocrEmitsFrom n i ps).Pairwise progLE := by
  induction ps generalizing i with
  | nil => exact List.Pairwise.nil
  | cons p rest ih =>
    unfold ocrEmitsFrom
    rw [List.pairwise_append]
    refine ⟨?_, ih (i + 1), ?_⟩
    · rcases p.ocrText with _ | t
      · exact List.Pairwise.nil
      · exact List.pairwise_singleton progLE _
    · intro a ha b hb
      obtain ⟨j, hij, hbval⟩ := ocrEmitsFrom_mem n (i + 1) rest b hb
      have haval : a.progress = ocrProgress n i := by
        rcases hocr : p.ocrText with _ | t
        · rw [hocr] at ha
          exact absurd ha (List.not_mem_nil a)
        · rw [hocr] at ha
          rcases List.mem_singleton.mp ha with rfl
          rfl
      unfold progLE
      rw [haval, hbval]
      exact ocrProgress_mono n (by omega)

theorem pageParseEmits_bounds (pages : List Page) :
    ∀ e ∈ pageParseEmits pages.length pages,
      0 ≤ e.progress ∧ e.progress ≤ 50 := by
  intro e he
  obtain ⟨j, _, hlen, hval⟩ :=
    pageParseEmitsFrom_mem pages.length 0 pages e he
  rw [hval]
  exact ⟨parseProgress_nonneg _ _, parseProgress_le_50 _ _ (by omega)⟩

theorem ocrEmits_bounds (n : Nat) (pages : List Page) :
    ∀ e ∈ ocrEmits n pages, 50 ≤ e.progress ∧ e.progress ≤ 70 := by
  intro e he
  obtain ⟨j, _, hval⟩ := ocrEmitsFrom_mem n 0 pages e he
  rw [hval]
  exact ⟨ocrProgress_ge_50 n j, ocrProgress_le_70 n j⟩

theorem processTail_completed (inp : RunInput)
    (texts : List (String × Nat)) (acc : List Emission) (dp : ℚ)
    (hA : acc.Pairwise progLE) (hup : ∀ e ∈ acc, e.progress ≤ dp)
    (hdp : dp ≤ 75)
    (hout : (processTail inp texts acc dp).outcome = Outcome.completed) :
    (processTail inp texts acc dp).emits.Pairwise progLE
    ∧ ∃ pre, (processTail inp texts acc dp).emits =
        pre ++ [⟨100, "Completed"⟩] ∧ ∀ e ∈ pre, e.progress ≤ 75 := by
  unfold processTail at hout ⊢
  by_cases hchunks :
      (inp.split (joinNL (texts.map Prod.fst))).isEmpty = true
  · simp only [hchunks, if_true] at hout
    exact absurd hout (by decide)
  · by_cases hstore : inp.storeOk = true
    · simp only [hchunks, hstore, Bool.not_true, Bool.false_eq_true,
        if_false] at hout ⊢
      constructor
      · apply List.pairwise_append.mpr
        refine ⟨?_, ?_, ?_⟩
        · apply List.pairwise_append.mpr
          refine ⟨hA, List.pairwise_singleton progLE _, ?_⟩
          intro a ha b hb
          rcases List.mem_singleton.mp hb with rfl
          exact hup a ha
        · norm_num [List.pairwise_cons, progLE]
        · intro a ha b hb
          have ha75 : a.progress ≤ 75 := by
            rcases List.mem_append.mp ha with h | h
            · linarith [hup a h]
            · rcases List.mem_singleton.mp h with rfl
              exact hdp
          rcases List.mem_cons.mp hb with rfl | hb'
          · exact ha75
          · rcases List.mem_singleton.mp hb' with rfl
            show a.progress ≤ (100 : ℚ)
            linarith
      · refine ⟨(acc ++ [⟨dp, "Generating embeddings"⟩]) ++
          [⟨75, "Storing in vector database"⟩], by simp, ?_⟩
        intro e he
        rcases List.mem_append.mp he with h | h
        · rcases List.mem_append.mp h with h' | h'
          · linarith [hup e h']
          · rcases List.mem_singleton.mp h' with rfl
            exact hdp
        · rcases List.mem_singleton.mp h with rfl
          norm_num
    · rw [Bool.not_eq_true] at hstore
      simp only [hchunks, hstore, Bool.not_false, if_true,
        Bool.false_eq_true, if_false] at hout
      exact absurd hout (by decide)

theorem process_pdf_completed_emits (inp : RunInput)
    (h0 : inp.progress0 = 0)
    (hdone : (process_pdf inp).outcome = Outcome.completed) :
    (process_pdf inp).emits.Pairwise progLE
    ∧ ∃ pre, (process_pdf inp).emits = pre ++ [⟨100, "Completed"⟩]
        ∧ ∀ e ∈ pre, e.progress ≤ 75 := by
  by_cases hfe : inp.fileExists = true
  case neg =>
    unfold process_pdf at hdone
    rw [Bool.not_eq_true] at hfe
    simp only [hfe, Bool.not_false, if_true] at hdone
    exact absurd hdone (by decide)
  case pos =>
  unfold process_pdf at hdone ⊢
  rw [h0] at hdone ⊢
  simp only [hfe, Bool.not_true, Bool.false_eq_true, if_false] at hdone ⊢
  set pe := pageParseEmits inp.pages.length inp.pages with hpe
  have hpeP : pe.Pairwise progLE :=
    pageParseEmitsFrom_pairwise inp.pages.length 0 inp.pages
  have hpeB : ∀ e ∈ pe, 0 ≤ e.progress ∧ e.progress ≤ 50 :=
    pageParseEmits_bounds inp.pages
  set dictp := lastProgress 0 pe with hdictp
  have hdictpUp : ∀ e ∈ pe, e.progress ≤ dictp := le_lastProgress 0 pe hpeP
  have hdictp0 : 0 ≤ dictp := by
    rcases lastProgress_mem 0 pe with h | ⟨e, he, hval⟩
    · rw [hdictp, h]
    · rw [hdictp, hval]
      exact (hpeB e he).1
  have hdictp50 : dictp ≤ 50 := by
    rcases lastProgress_mem 0 pe with h | ⟨e, he, hval⟩
    · rw [hdictp, h]; norm_num
    · rw [hdictp, hval]
      exact (hpeB e he).2
  have hheadP : ([⟨0, "Processing"⟩] ++ [⟨0, "Parsing PDF"⟩] :
      List Emission).Pairwise progLE := by
    norm_num [List.pairwise_cons, progLE]
  have hhead0 : ∀ e ∈ ([⟨0, "Processing"⟩] ++ [⟨0, "Parsing PDF"⟩] :
      List Emission), e.progress = 0 := by
    intro e he
    rcases List.mem_append.mp he with h | h <;>
      rcases List.mem_singleton.mp h with rfl <;> rfl
  have haccP : (([⟨0, "Processing"⟩] ++ [⟨0, "Parsing PDF"⟩] ++ pe) :
      List Emission).Pairwise progLE := by
    apply List.pairwise_append.mpr
    refine ⟨hheadP, hpeP, ?_⟩
    intro a ha b hb
    unfold progLE
    rw [hhead0 a ha]
    exact (hpeB b hb).1
  have haccUp : ∀ e ∈ ([⟨0, "Processing"⟩] ++ [⟨0, "Parsing PDF"⟩] ++ pe :
      List Emission), e.progress ≤ dictp := by
    intro e he
    rcases List.mem_append.mp he with h | h
    · rw [hhead0 e h]
      exact hdictp0
    · exact hdictpUp e h
  have hacc50 : ∀ e ∈ ([⟨0, "Processing"⟩] ++ [⟨0, "Parsing PDF"⟩] ++ pe :
      List Emission), e.progress ≤ 50 := by
    intro e he
    rcases List.mem_append.mp he with h | h
    · rw [hhead0 e h]; norm_num
    · exact (hpeB e h).2
  by_cases htrig : ocrTriggered inp.pages = true
  case neg =>
    rw [Bool.not_eq_true] at htrig
    simp only [htrig, Bool.false_eq_true, if_false] at hdone ⊢
    exact processTail_completed inp (parsedTexts inp.pages) _ dictp
      haccP haccUp (by linarith) hdone
  case pos =>
  simp only [htrig, if_true] at hdone ⊢
  set eo := ocrEmits inp.pages.length inp.pages with heo
  have heoP : eo.Pairwise progLE :=
    ocrEmitsFrom_pairwise inp.pages.length 0 inp.pages
  have heoB : ∀ e ∈ eo, 50 ≤ e.progress ∧ e.progress ≤ 70 :=
    ocrEmits_bounds inp.pages.length inp.pages
  by_cases hres : (ocrResults inp.pages).isEmpty = true
  case pos =>
    simp only [hres, if_true] at hdone
    by_cases hnz : inp.pages.length = 0
    · rw [if_pos hnz] at hdone
      simp at hdone
    · rw [if_neg hnz] at hdone
      simp at hdone
  case neg =>
  simp only [hres, Bool.false_eq_true, if_false] at hdone ⊢
  set dpo := lastProgress dictp eo with hdpo
  have haccOcrP : ((([⟨0, "Processing"⟩] ++ [⟨0, "Parsing PDF"⟩] ++ pe) ++
      [⟨dictp, "Running OCR"⟩] ++ eo) : List Emission).Pairwise progLE := by
    apply List.pairwise_append.mpr
    refine ⟨?_, heoP, ?_⟩
    · apply List.pairwise_append.mpr
      refine ⟨haccP, List.pairwise_singleton progLE _, ?_⟩
      intro a ha b hb
      rcases List.mem_singleton.mp hb with rfl
      exact haccUp a ha
    · intro a ha b hb
      have ha50 : a.progress ≤ 50 := by
        rcases List.mem_append.mp ha with h | h
        · exact hacc50 a h
        · rcases List.mem_singleton.mp h with rfl
          exact hdictp50
      unfold progLE
      linarith [(heoB b hb).1]
  have haccOcrUp : ∀ e ∈ ((([⟨0, "Processing"⟩] ++ [⟨0, "Parsing PDF"⟩] ++
      pe) ++ [⟨dictp, "Running OCR"⟩] ++ eo) : List Emission),
      e.progress ≤ dpo := by
    have hdpo_ge : dictp ≤ dpo := by
      cases heq : eo with
      | nil =>
        rw [hdpo, heq]
        exact le_refl _
      | cons x xs =>
        obtain ⟨e, he, hval⟩ :=
          lastProgress_mem_ne dictp eo (by rw [heq]; simp)
        rw [hdpo, hval]
        linarith [(heoB e he).1]
    intro e he
    rcases List.mem_append.mp he with h | h
    · rcases List.mem_append.mp h with h' | h'
      · linarith [haccUp e h']
      · rcases List.mem_singleton.mp h' with rfl
        exact hdpo_ge
    · exact le_lastProgress dictp eo heoP e h
  have hdpo75 : dpo ≤ 75 := by
    rcases lastProgress_mem dictp eo with h | ⟨e, he, hval⟩
    · rw [hdpo, h]; linarith
    · rw [hdpo, hval]
      linarith [(heoB e he).2]
  exact processTail_completed inp (ocrResults inp.pages) _ dpo
    haccOcrP haccOcrUp hdpo75 hdone

/-- C8: for any run starting at the committed `progress = 0` that ends
`Completed`, the sequence of progress values actually broadcast (after the
`_emit_status` throttle, under arbitrary `time.monotonic()` stamps) is
non-decreasing and its final broadcast is progress `100` with status
`Completed` — the final update is never suppressed because every earlier
candidate sits at or below progress 75. -/
theorem claim_c8 (inp : RunInput) (τ : Nat → ℚ) (h0 : inp.progress0 = 0)
    (hdone : (process_pdf inp).outcome = Outcome.completed) :
    (throttleRun none (attachTimes τ (process_pdf inp).emits)).Pairwise
      progLE
    ∧ (throttleRun none (attachTimes τ (process_pdf inp).emits)).getLast? =
        some ⟨100, "Completed"⟩ := by
  obtain ⟨hsorted, pre, hemits, hbound⟩ :=
    process_pdf_completed_emits inp h0 hdone
  constructor
  · have hmap : (attachTimes τ (process_pdf inp).emits).map Prod.fst =
        (process_pdf inp).emits := attachTimesFrom_map_fst τ 0 _
    exact (hmap ▸ hsorted).sublist (throttleRun_sublist none _)
  · rw [hemits]
    unfold attachTimes
    rw [attachTimesFrom_append]
    rw [show attachTimesFrom τ (0 + pre.length)
        [(⟨100, "Completed"⟩ : Emission)] =
      [((⟨100, "Completed"⟩ : Emission), τ (0 + pre.length))] from rfl]
    rw [throttleRun_append_far none _ _ ?_ ?_]
    · rw [List.getLast?_concat]
    · intro e he
      have hefst : e.1 ∈ pre := by
        have hm := List.mem_map_of_mem Prod.fst he
        rw [attachTimesFrom_map_fst] at hm
        exact hm
      have hb := hbound e.1 hefst
      show e.1.progress + 1/5 ≤ (100 : ℚ)
      linarith
    · intro prev hprev
      exact absurd hprev (by simp)

/-- Concrete instantiation of the C8 theorem: a one-page document with
native text completes, its broadcast progress sequence is non-decreasing
and ends at `(100, Completed)`. -/
theorem claim_c8_witness :
    (throttleRun none (attachTimes (fun _ => 0)
      (process_pdf ⟨[⟨"hi", [], true, none⟩], true, 0, fun s => [s],
        true⟩).emits)).Pairwise progLE
    ∧ (throttleRun none (attachTimes (fun _ => 0)
        (process_pdf ⟨[⟨"hi", [], true, none⟩], true, 0, fun s => [s],
          true⟩).emits)).getLast? = some ⟨100, "Completed"⟩ :=
  claim_c8 ⟨[⟨"hi", [], true, none⟩], true, 0, fun s => [s], true⟩
    (fun _ => 0) rfl (by decide)

end PdfRag
